import Mathlib

/-!
Verification development for the heap-object-graph snapshotting and
lazy-restoration engine (HeapShared) of the Leyden repository.

The definitions below are a shallow embedding of the dump-time graph
walker, the object identity cache, the root table, the subgraph
recorder, and the runtime restoration protocol, translated from
`src/hotspot/share/cds` (the HeapShared translation unit).  Heap
objects are identified by natural numbers; a heap is a finite map from
identifiers to object descriptions.  External oracles that the source
consults (`ArchiveHeapWriter::is_too_large_to_archive`,
`JavaClasses::is_supported_for_archiving`, module/klass metadata) are
modelled as boolean-valued fields of the heap, exactly as the source
treats them: opaquely queried predicates.
-/

set_option maxHeartbeats 1000000

/-- Events recorded while dumping, used to express ordering properties
(identity hash fixed before any copy is made). -/
inductive AEvent where
  | hashed (obj : Nat)
  | addSource (obj : Nat)
  | cachePut (obj : Nat)
  | copied (obj : Nat)
deriving DecidableEq, Repr

/-- `HeapShared::CachedOopInfo`: the identity-cache payload (the referrer
recorded by `make_cached_oop_info`). -/
structure CachedOopInfo where
  referrer : Option Nat
deriving DecidableEq, Repr

/-- Classification of a klass, mirroring `is_instance_klass` /
`is_objArray_klass` / `is_typeArray_klass` in the source. -/
inductive KKind where
  | instanceK
  | objArrayK (bottomIsInstance : Bool) (bottom : Nat)
  | typeArrayK
deriving DecidableEq, Repr

/-- Klass metadata consulted by `KlassSubGraphInfo::add_subgraph_object_klass`,
`check_allowed_klass` and `is_non_early_klass`. -/
structure KlassMeta where
  kind : KKind
  isStringOrObjectKlass : Bool
  inJavaBase : Bool
  isTestClass : Bool
  isEarly : Bool
  isObjectArrayKlassObj : Bool
deriving DecidableEq, Repr

/-- One heap object: its size, outgoing reference fields (in `oop_iterate`
order, `none` = null), whether it is a `java.lang.Class` instance together
with its scratch-mirror substitute, whether
`JavaClasses::is_supported_for_archiving` holds, its klass, whether it is an
enum object with synthetic constant references, and whether it is an archived
`java.lang.Module` instance. -/
structure ObjInfo where
  size : Nat
  fields : List (Option Nat)
  isMirror : Bool
  scratch : Nat
  supported : Bool
  klass : Nat
  isEnum : Bool
  enumConsts : List (Option Nat)
  isArchivedModule : Bool
deriving DecidableEq, Repr

/-- A dump-time heap: objects `0 .. n-1`, klass metadata, the externally
supplied size threshold predicate (`ArchiveHeapWriter::is_too_large_to_archive`),
the `ArchiveInvokeDynamic` flag, and mirror static-field contents
(`m->obj_field(offset)` for the mirror of a klass). -/
structure Heap where
  n : Nat
  obj : Nat → ObjInfo
  klassMeta : Nat → KlassMeta
  tooLargeSize : Nat → Bool
  archiveInvokeDynamic : Bool
  staticField : Nat → Nat → Option Nat

/-- Dump-time global state: the object identity cache
(`_archived_object_cache`), the pending root table (`_pending_roots`),
the session visited set (`_seen_objects_table`), the writer's source-object
list (`ArchiveHeapWriter::add_source_obj`), and the event log. -/
structure DumpState where
  cache : List (Nat × CachedOopInfo)
  pendingRoots : List (Option Nat)
  seen : List Nat
  sourceObjs : List Nat
  events : List AEvent
deriving DecidableEq, Repr

/-- `HeapShared::has_been_archived`: membership in the identity cache. -/
def has_been_archived (st : DumpState) (o : Nat) : Bool :=
  (st.cache.lookup o).isSome

/-- `HeapShared::append_root`: append to `_pending_roots`, returning the
assigned index. -/
def append_root (st : DumpState) (v : Option Nat) : Nat × DumpState :=
  (st.pendingRoots.length, { st with pendingRoots := st.pendingRoots ++ [v] })

/-- `HeapShared::make_cached_oop_info`: record the current referrer. -/
def make_cached_oop_info (referrer : Option Nat) : CachedOopInfo :=
  { referrer := referrer }

/-- `HeapShared::archive_object`: early-return if already archived; fail if
too large; otherwise record the source object, compute the identity hash
(fixing it in the header), insert into the identity cache, and handle the
archived-module special case (which appends a root). -/
def archive_object (h : Heap) (referrer : Option Nat) (st : DumpState)
    (o : Nat) : Bool × DumpState :=
  if has_been_archived st o then
    (true, st)
  else if h.tooLargeSize (h.obj o).size then
    (false, st)
  else
    let st1 : DumpState :=
      { st with sourceObjs := st.sourceObjs ++ [o],
                events := st.events ++ [AEvent.addSource o, AEvent.hashed o] }
    let info := make_cached_oop_info referrer
    let st2 : DumpState :=
      { st1 with cache := st1.cache ++ [(o, info)],
                 events := st1.events ++ [AEvent.cachePut o] }
    let st3 : DumpState :=
      if (h.obj o).isArchivedModule then (append_root st2 (some o)).2 else st2
    (true, st3)

/-- Keys of the identity cache. -/
def cacheKeys (st : DumpState) : List Nat :=
  st.cache.map Prod.fst

theorem lookup_isSome_append_singleton {β : Type} (l : List (Nat × β))
    (o : Nat) (i : β) : ((l ++ [(o, i)]).lookup o).isSome := by
  induction l with
  | nil => simp [List.lookup]
  | cons a t ih =>
    obtain ⟨k, v⟩ := a
    cases hbk : (o == k) <;> simp [List.lookup, hbk, ih]

theorem lookup_eq_none_not_mem_keys {β : Type} (l : List (Nat × β))
    (o : Nat) (hl : l.lookup o = none) : o ∉ l.map Prod.fst := by
  induction l with
  | nil => simp
  | cons a t ih =>
    obtain ⟨k, v⟩ := a
    cases hbk : (o == k) with
    | true => simp [List.lookup, hbk] at hl
    | false =>
      have hl' : t.lookup o = none := by simpa [List.lookup, hbk] using hl
      have hok : o ≠ k := by simpa using hbk
      simpa [hok] using ih hl'

theorem has_been_archived_after_success (h : Heap) (r : Option Nat)
    (st : DumpState) (o : Nat)
    (hs : (archive_object h r st o).1 = true) :
    has_been_archived (archive_object h r st o).2 o = true := by
  have key : ∀ stx : DumpState,
      stx.cache = st.cache ++ [(o, make_cached_oop_info r)] →
      has_been_archived stx o = true := by
    intro stx hc
    unfold has_been_archived
    rw [hc]
    exact lookup_isSome_append_singleton st.cache o _
  by_cases h1 : has_been_archived st o
  · have : (archive_object h r st o).2 = st := by simp [archive_object, h1]
    rw [this]
    exact h1
  · by_cases h2 : h.tooLargeSize (h.obj o).size
    · simp [archive_object, h1, h2] at hs
    · by_cases h3 : (h.obj o).isArchivedModule
      · exact key _ (by simp [archive_object, h1, h2, h3, append_root])
      · exact key _ (by simp [archive_object, h1, h2, h3])

theorem archive_object_of_archived (h : Heap) (r : Option Nat)
    (st : DumpState) (o : Nat) (ha : has_been_archived st o = true) :
    archive_object h r st o = (true, st) := by
  simp [archive_object, ha]

/-- C2: For every heap object `obj`, calling `archive_object` a second time
after a first successful call is a no-op returning the same success value,
and an object appears at most once in the identity cache. -/
theorem c2_archive_object_idempotent (h : Heap) (r : Option Nat)
    (st : DumpState) (o : Nat)
    (hfst : (archive_object h r st o).1 = true)
    (hnd : (cacheKeys st).Nodup) :
    (∀ r' : Option Nat,
        archive_object h r' (archive_object h r st o).2 o =
          (true, (archive_object h r st o).2)) ∧
    (cacheKeys (archive_object h r st o).2).Nodup := by
  have harch := has_been_archived_after_success h r st o hfst
  refine ⟨fun r' => archive_object_of_archived h r' _ o harch, ?_⟩
  by_cases h1 : has_been_archived st o
  · have : (archive_object h r st o).2 = st := by simp [archive_object, h1]
    rw [this]; exact hnd
  · by_cases h2 : h.tooLargeSize (h.obj o).size
    · simp [archive_object, h1, h2] at hfst
    · have h1' : ¬ (st.cache.lookup o).isSome = true := h1
      have hnone : st.cache.lookup o = none :=
        Option.not_isSome_iff_eq_none.mp h1'
      have hmem : o ∉ cacheKeys st := lookup_eq_none_not_mem_keys _ _ hnone
      have hkeys : cacheKeys (archive_object h r st o).2 =
          cacheKeys st ++ [o] := by
        by_cases h3 : (h.obj o).isArchivedModule
        · simp [archive_object, h1, h2, h3, append_root, cacheKeys]
        · simp [archive_object, h1, h2, h3, cacheKeys]
      rw [hkeys, ← List.concat_eq_append]
      exact List.Nodup.concat hmem hnd

/-- A one-object heap used by witnesses: object 0 is a small, plain,
supported object with no outgoing references. -/
def wHeap : Heap :=
  { n := 1,
    obj := fun _ =>
      { size := 1, fields := [], isMirror := false, scratch := 0,
        supported := true, klass := 0, isEnum := false,
        enumConsts := [], isArchivedModule := false },
    klassMeta := fun _ =>
      { kind := KKind.instanceK, isStringOrObjectKlass := false,
        inJavaBase := true, isTestClass := false, isEarly := true,
        isObjectArrayKlassObj := false },
    tooLargeSize := fun _ => false,
    archiveInvokeDynamic := false,
    staticField := fun _ _ => none }

/-- The empty dump-time state. -/
def emptyDump : DumpState :=
  { cache := [], pendingRoots := [], seen := [], sourceObjs := [], events := [] }

theorem c2_witness :
    (archive_object wHeap none emptyDump 0).1 = true ∧
    ((∀ r' : Option Nat,
        archive_object wHeap r' (archive_object wHeap none emptyDump 0).2 0 =
          (true, (archive_object wHeap none emptyDump 0).2)) ∧
     (cacheKeys (archive_object wHeap none emptyDump 0).2).Nodup) :=
  ⟨by decide,
   c2_archive_object_idempotent wHeap none emptyDump 0 (by decide) (by decide)⟩

/-- Dump-time `KlassSubGraphInfo`: the holder klass (buffered), the
full-module-graph flag, the accumulated entry fields
(`(static_field_offset, root_index)` pairs), the involved-klass list and
the `_has_non_early_klasses` flag. -/
structure KlassSubGraphInfo where
  k : Nat
  isFullModuleGraph : Bool
  entryFields : List (Nat × Nat)
  objectKlasses : List Nat
  hasNonEarlyKlasses : Bool
deriving DecidableEq, Repr

/-- The frozen `ArchivedKlassSubGraphInfoRecord`. -/
structure ArchRecord where
  k : Nat
  entryFieldRecords : Option (List (Nat × Nat))
  subgraphObjectKlasses : Option (List Nat)
  isFullModuleGraph : Bool
  hasNonEarlyKlasses : Bool
deriving DecidableEq, Repr

/-- `ArchivedKlassSubGraphInfoRecord::init`: freeze a `KlassSubGraphInfo`;
a full-module-graph record forces `_has_non_early_klasses = false`,
otherwise it copies the info's flag; null (`none`) stands for the never
allocated `GrowableArray`s. -/
def archived_record_init (info : KlassSubGraphInfo) : ArchRecord :=
  { k := info.k,
    isFullModuleGraph := info.isFullModuleGraph,
    hasNonEarlyKlasses :=
      if info.isFullModuleGraph then false else info.hasNonEarlyKlasses,
    entryFieldRecords :=
      if info.entryFields.isEmpty then none else some info.entryFields,
    subgraphObjectKlasses :=
      if info.objectKlasses.isEmpty then none else some info.objectKlasses }

/-- Runtime restoration state: the loaded root table, the
`ArchiveHeapLoader::is_in_use` flag, the `CDSConfig` /
`JvmtiExport::should_post_class_file_load_hook` configuration, the
run-time subgraph record table, klass sharing data, mirror static slots,
and external oracles for class resolution and initialization. -/
structure RtState where
  roots : List (Option Nat)
  heapInUse : Bool
  loadingFullModuleGraph : Bool
  cflhEnabled : Bool
  table : List (Nat × ArchRecord)
  sharedKlass : Nat → Bool
  mirrorField : Nat → Nat → Option Nat
  resolvedKlasses : List Nat
  initedKlasses : List Nat
  resolveOk : Nat → Bool
  initOk : Nat → Bool
  methodTypeKlass : Option Nat
  archivedMethodTypesOffset : Nat
  objectOnlyTypesOffset : Nat
  arrayElem : Nat → Nat → Option Nat

/-- `HeapShared::clear_root` (runtime): null the slot when the archive
heap is in use. -/
def rt_clear_root (st : RtState) (i : Nat) : RtState :=
  if st.heapInUse then { st with roots := st.roots.set i none } else st

/-- `HeapShared::get_root`: read the slot, optionally clearing it. -/
def rt_get_root (st : RtState) (i : Nat) (clear : Bool) : Option Nat × RtState :=
  let result := st.roots.getD i none
  if clear then (result, rt_clear_root st i) else (result, st)

/-- `m->obj_field_put(offset, v)` on the mirror of klass `k`. -/
def setMirrorField (st : RtState) (k off : Nat) (v : Option Nat) : RtState :=
  { st with mirrorField :=
      fun kk oo => if kk = k ∧ oo = off then v else st.mirrorField kk oo }

/-- `HeapShared::clear_archived_roots_of`: look the record up directly and
clear the root of every entry field. -/
def clear_archived_roots_of (st : RtState) (k : Nat) : RtState :=
  match st.table.lookup k with
  | none => st
  | some record =>
    match record.entryFieldRecords with
    | none => st
    | some efs => efs.foldl (fun s e => rt_clear_root s e.2) st

/-- `HeapShared::resolve_or_init(Klass*, do_init)`: resolve the klass when
it has no class-loader data yet, or run its initializer; `none` models a
pending exception. -/
def rt_resolve_or_init (st : RtState) (k : Nat) (doInit : Bool) :
    Option RtState :=
  if !doInit then
    if k ∈ st.resolvedKlasses then some st
    else if st.resolveOk k then
      some { st with resolvedKlasses := k :: st.resolvedKlasses }
    else none
  else
    if st.initOk k then
      some { st with initedKlasses := k :: st.initedKlasses }
    else none

/-- The documented `MethodType` circular-initialization special case: before
the generic path runs, pre-seed `archivedMethodTypes` and `objectOnlyTypes`
in the holder's mirror directly from the root table. -/
def method_type_hack (st : RtState) (k : Nat) (record : ArchRecord) : RtState :=
  match record.entryFieldRecords with
  | none => st
  | some [] => st
  | some (e :: _) =>
    match (rt_get_root st e.2 false).1 with
    | none => st
    | some a =>
      let st1 := setMirrorField st k st.archivedMethodTypesOffset (st.arrayElem a 0)
      setMirrorField st1 k st.objectOnlyTypesOffset (st.arrayElem a 1)

/-- The loop over `record->subgraph_object_klasses()`: a non-shared klass
rejects the record; resolution failures propagate as `none`. -/
def resolve_klass_list (st : RtState) (record : ArchRecord) (doInit : Bool) :
    List Nat → Option ArchRecord × RtState
  | [] => (some record, st)
  | kl :: rest =>
    if ¬ st.sharedKlass kl then (none, st)
    else
      match rt_resolve_or_init st kl doInit with
      | none => (none, st)
      | some st' => resolve_klass_list st' record doInit rest

/-- The part of `resolve_or_init_classes_for_subgraph_of` that runs after
both compatibility gates have passed. -/
def resolve_subgraph_post_gates (st : RtState) (k : Nat) (record : ArchRecord)
    (doInit : Bool) : Option ArchRecord × RtState :=
  let st0 := if doInit ∧ st.methodTypeKlass = some k
             then method_type_hack st k record else st
  match rt_resolve_or_init st0 k doInit with
  | none => (none, st0)
  | some st1 =>
    match record.subgraphObjectKlasses with
    | none => (some record, st1)
    | some klasses => resolve_klass_list st1 record doInit klasses

/-- `HeapShared::resolve_or_init_classes_for_subgraph_of`: non-shared
holders and absent records yield null; the full-module-graph gate and the
ClassFileLoadHook gate each yield null (REJECTED) with no state change;
otherwise the post-gate resolution runs. -/
def resolve_or_init_classes_for_subgraph_of (st : RtState) (k : Nat)
    (doInit : Bool) : Option ArchRecord × RtState :=
  if ¬ st.sharedKlass k then (none, st)
  else
    match st.table.lookup k with
    | none => (none, st)
    | some record =>
      if record.isFullModuleGraph ∧ ¬ st.loadingFullModuleGraph then (none, st)
      else if record.hasNonEarlyKlasses ∧ st.cflhEnabled then (none, st)
      else resolve_subgraph_post_gates st k record doInit

/-- `HeapShared::resolve_classes_for_subgraph_of`: resolve without
initialization; when the record is not used, clear its archived roots. -/
def resolve_classes_for_subgraph_of (st : RtState) (k : Nat) : RtState :=
  match resolve_or_init_classes_for_subgraph_of st k false with
  | (none, st') => clear_archived_roots_of st' k
  | (some _, st') => st'

/-- `HeapShared::init_archived_fields_for`: store each entry's root value
(clearing the root slot) into the holder mirror's static field. -/
def init_archived_fields_for (st : RtState) (k : Nat) (record : ArchRecord) :
    RtState :=
  match record.entryFieldRecords with
  | none => st
  | some efs =>
    efs.foldl (fun s e =>
      let p := rt_get_root s e.2 true
      setMirrorField p.2 k e.1 p.1) st

/-- `HeapShared::initialize_from_archived_subgraph`: resolve with
initialization and, only when a usable record was returned without a
pending exception, populate the mirror's static fields. -/
def init_from_archived_subgraph (st : RtState) (k : Nat) : RtState :=
  if ¬ st.heapInUse then st
  else
    match resolve_or_init_classes_for_subgraph_of st k true with
    | (none, st') => st'
    | (some record, st') => init_archived_fields_for st' k record

theorem set_getD_none (l : List (Option Nat)) (i : Nat) :
    (l.set i none).getD i none = none := by
  by_cases hi : i < l.length
  · rw [List.getD_eq_getD_get?, List.get?_eq_getElem?,
        List.getElem?_set_eq_of_lt none hi]
    rfl
  · rw [List.set_eq_of_length_le (Nat.le_of_not_lt hi),
        List.getD_eq_default _ _ (Nat.le_of_not_lt hi)]

theorem getD_none_set_preserved (l : List (Option Nat)) (i j : Nat)
    (hl : l.getD i none = none) : (l.set j none).getD i none = none := by
  by_cases hij : j = i
  · subst hij
    exact set_getD_none l j
  · rw [List.getD_eq_getD_get?, List.get?_eq_getElem?, List.getElem?_set_ne hij]
    rw [List.getD_eq_getD_get?, List.get?_eq_getElem?] at hl
    exact hl

theorem rt_clear_root_heapInUse (st : RtState) (i : Nat) :
    (rt_clear_root st i).heapInUse = st.heapInUse := by
  unfold rt_clear_root
  split <;> rfl

theorem rt_clear_root_mirrorField (st : RtState) (i : Nat) :
    (rt_clear_root st i).mirrorField = st.mirrorField := by
  unfold rt_clear_root
  split <;> rfl

theorem foldl_clear_preserves_none (efs : List (Nat × Nat)) :
    ∀ (st : RtState) (i : Nat), st.roots.getD i none = none →
      ((efs.foldl (fun s x => rt_clear_root s x.2) st).roots.getD i none) =
        none := by
  induction efs with
  | nil => intro st i hcl; exact hcl
  | cons a rest ih =>
    intro st i hcl
    rw [List.foldl_cons]
    apply ih
    unfold rt_clear_root
    split
    · exact getD_none_set_preserved _ _ _ hcl
    · exact hcl

theorem foldl_clear_clears (efs : List (Nat × Nat)) :
    ∀ st : RtState, st.heapInUse = true →
      ∀ e ∈ efs,
        ((efs.foldl (fun s x => rt_clear_root s x.2) st).roots.getD e.2 none) =
          none := by
  induction efs with
  | nil => intro st _ e he; cases he
  | cons a rest ih =>
    intro st hin e he
    rw [List.foldl_cons]
    rcases List.mem_cons.mp he with heq | hmem
    · subst heq
      have h1 : (rt_clear_root st e.2).roots.getD e.2 none = none := by
        unfold rt_clear_root
        rw [if_pos hin]
        exact set_getD_none _ _
      exact foldl_clear_preserves_none rest _ _ h1
    · exact ih (rt_clear_root st a.2)
        (by rw [rt_clear_root_heapInUse]; exact hin) e hmem

theorem foldl_clear_mirrorField (efs : List (Nat × Nat)) :
    ∀ st : RtState,
      (efs.foldl (fun s x => rt_clear_root s x.2) st).mirrorField =
        st.mirrorField := by
  induction efs with
  | nil => intro st; rfl
  | cons a rest ih =>
    intro st
    rw [List.foldl_cons, ih, rt_clear_root_mirrorField]

theorem clear_archived_roots_of_mirrorField (st : RtState) (k : Nat) :
    (clear_archived_roots_of st k).mirrorField = st.mirrorField := by
  unfold clear_archived_roots_of
  cases st.table.lookup k with
  | none => rfl
  | some record =>
    dsimp only
    cases record.entryFieldRecords with
    | none => rfl
    | some efs => exact foldl_clear_mirrorField efs st

theorem clear_archived_roots_of_clears (st : RtState) (k : Nat)
    (record : ArchRecord) (hin : st.heapInUse = true)
    (hlook : st.table.lookup k = some record)
    (efs : List (Nat × Nat)) (hefs : record.entryFieldRecords = some efs) :
    ∀ e ∈ efs, (clear_archived_roots_of st k).roots.getD e.2 none = none := by
  intro e he
  simp only [clear_archived_roots_of, hlook, hefs]
  exact foldl_clear_clears efs st hin e he

/-- C6: For every index `i`, `get_root(i, clear := true)` returns the value
the root-table slot held before clearing, and a subsequent
`get_root(i, clear := false)` returns the null-equivalent value. -/
theorem c6_get_root_clears (st : RtState) (i : Nat)
    (hin : st.heapInUse = true) :
    (rt_get_root st i true).1 = st.roots.getD i none ∧
    (rt_get_root (rt_get_root st i true).2 i false).1 = none := by
  constructor
  · rfl
  · show (rt_clear_root st i).roots.getD i none = none
    unfold rt_clear_root
    rw [if_pos hin]
    exact set_getD_none _ _

/-- A small runtime state used by witnesses. -/
def wRt : RtState :=
  { roots := [some 7, some 8],
    heapInUse := true,
    loadingFullModuleGraph := true,
    cflhEnabled := false,
    table := [],
    sharedKlass := fun _ => true,
    mirrorField := fun _ _ => none,
    resolvedKlasses := [],
    initedKlasses := [],
    resolveOk := fun _ => true,
    initOk := fun _ => true,
    methodTypeKlass := none,
    archivedMethodTypesOffset := 0,
    objectOnlyTypesOffset := 1,
    arrayElem := fun _ _ => none }

theorem c6_witness :
    wRt.heapInUse = true ∧
    ((rt_get_root wRt 0 true).1 = wRt.roots.getD 0 none ∧
     (rt_get_root (rt_get_root wRt 0 true).2 0 false).1 = none) :=
  ⟨rfl, c6_get_root_clears wRt 0 rfl⟩

/-- C1: At restore time, a Subgraph Record whose `has_non_early_klasses`
flag is set while ClassFileLoadHook is active, or whose
`is_full_module_graph` flag is set while the process is not loading the
full module graph, is REJECTED: `resolve_or_init_classes_for_subgraph_of`
returns null with the state unchanged, `resolve_classes_for_subgraph_of`
clears every entry's root via `clear_root`, no mirror static field is
modified, and `initialize_from_archived_subgraph` leaves the state intact. -/
theorem c1_restore_rejection (st : RtState) (k : Nat) (record : ArchRecord)
    (hshared : st.sharedKlass k = true)
    (hlook : st.table.lookup k = some record)
    (hgate : (record.hasNonEarlyKlasses = true ∧ st.cflhEnabled = true) ∨
             (record.isFullModuleGraph = true ∧
              st.loadingFullModuleGraph = false))
    (hin : st.heapInUse = true) :
    (∀ doInit : Bool,
        resolve_or_init_classes_for_subgraph_of st k doInit = (none, st)) ∧
    resolve_classes_for_subgraph_of st k = clear_archived_roots_of st k ∧
    (∀ efs, record.entryFieldRecords = some efs →
        ∀ e ∈ efs,
          (resolve_classes_for_subgraph_of st k).roots.getD e.2 none = none) ∧
    (resolve_classes_for_subgraph_of st k).mirrorField = st.mirrorField ∧
    init_from_archived_subgraph st k = st := by
  have hrej : ∀ doInit : Bool,
      resolve_or_init_classes_for_subgraph_of st k doInit = (none, st) := by
    intro doInit
    rcases hgate with ⟨hne, hcf⟩ | ⟨hfm, hnl⟩
    · by_cases hg1 : record.isFullModuleGraph = true ∧
          ¬ st.loadingFullModuleGraph = true
      · simp [resolve_or_init_classes_for_subgraph_of, hshared, hlook, hg1]
      · simp only [resolve_or_init_classes_for_subgraph_of, hshared,
          Bool.not_eq_true, hlook, if_neg hg1]
        simp [hg1, hne, hcf]
    · simp [resolve_or_init_classes_for_subgraph_of, hshared, hlook, hfm, hnl]
  have hres : resolve_classes_for_subgraph_of st k =
      clear_archived_roots_of st k := by
    unfold resolve_classes_for_subgraph_of
    rw [hrej false]
  refine ⟨hrej, hres, ?_, ?_, ?_⟩
  · intro efs hefs e he
    rw [hres]
    exact clear_archived_roots_of_clears st k record hin hlook efs hefs e he
  · rw [hres]
    exact clear_archived_roots_of_mirrorField st k
  · unfold init_from_archived_subgraph
    rw [if_neg (by simp [hin]), hrej true]

/-- A rejected record: not full-module-graph, but with non-early klasses. -/
def wRecRej : ArchRecord :=
  { k := 5,
    entryFieldRecords := some [(16, 0), (24, 1)],
    subgraphObjectKlasses := some [6],
    isFullModuleGraph := false,
    hasNonEarlyKlasses := true }

/-- A runtime state in which ClassFileLoadHook is active and `wRecRej` is
installed for klass 5. -/
def wRtRej : RtState :=
  { wRt with table := [(5, wRecRej)], cflhEnabled := true }

theorem c1_witness :
    (wRtRej.sharedKlass 5 = true ∧
     wRtRej.table.lookup 5 = some wRecRej ∧
     (wRecRej.hasNonEarlyKlasses = true ∧ wRtRej.cflhEnabled = true) ∧
     wRtRej.heapInUse = true) ∧
    ((∀ doInit : Bool,
        resolve_or_init_classes_for_subgraph_of wRtRej 5 doInit =
          (none, wRtRej)) ∧
     resolve_classes_for_subgraph_of wRtRej 5 =
       clear_archived_roots_of wRtRej 5 ∧
     (∀ efs, wRecRej.entryFieldRecords = some efs →
        ∀ e ∈ efs,
          (resolve_classes_for_subgraph_of wRtRej 5).roots.getD e.2 none =
            none) ∧
     (resolve_classes_for_subgraph_of wRtRej 5).mirrorField =
       wRtRej.mirrorField ∧
     init_from_archived_subgraph wRtRej 5 = wRtRej) :=
  ⟨⟨rfl, by decide, ⟨rfl, rfl⟩, rfl⟩,
   c1_restore_rejection wRtRej 5 wRecRej rfl (by decide)
     (Or.inl ⟨rfl, rfl⟩) rfl⟩

/-- C10: freezing a full-module-graph `KlassSubGraphInfo` forces the
archived `has_non_early_klasses` flag to false regardless of what was
recorded, so the ClassFileLoadHook gate can never reject such a record:
when the full module graph is being loaded, resolution proceeds past both
gates whatever the hook flag is, and only a disabled module graph rejects
at the gates. -/
theorem c10_fmg_forces_early (info : KlassSubGraphInfo)
    (hfmg : info.isFullModuleGraph = true) :
    (archived_record_init info).hasNonEarlyKlasses = false ∧
    (∀ (st : RtState) (k : Nat) (doInit : Bool),
        st.sharedKlass k = true →
        st.table.lookup k = some (archived_record_init info) →
        ((st.loadingFullModuleGraph = true →
            resolve_or_init_classes_for_subgraph_of st k doInit =
              resolve_subgraph_post_gates st k (archived_record_init info)
                doInit) ∧
         (st.loadingFullModuleGraph = false →
            resolve_or_init_classes_for_subgraph_of st k doInit =
              (none, st)))) := by
  have hne : (archived_record_init info).hasNonEarlyKlasses = false := by
    simp [archived_record_init, hfmg]
  have hfm : (archived_record_init info).isFullModuleGraph = true := by
    simp [archived_record_init, hfmg]
  refine ⟨hne, ?_⟩
  intro st k doInit hsh hlook
  constructor
  · intro hld
    simp [resolve_or_init_classes_for_subgraph_of, hsh, hlook, hne, hfm, hld]
  · intro hld
    simp [resolve_or_init_classes_for_subgraph_of, hsh, hlook, hfm, hld]

/-- A full-module-graph info that recorded non-early klasses. -/
def wInfoFmg : KlassSubGraphInfo :=
  { k := 5, isFullModuleGraph := true, entryFields := [(16, 0)],
    objectKlasses := [6], hasNonEarlyKlasses := true }

theorem c10_witness :
    wInfoFmg.isFullModuleGraph = true ∧
    ((archived_record_init wInfoFmg).hasNonEarlyKlasses = false ∧
     (∀ (st : RtState) (k : Nat) (doInit : Bool),
        st.sharedKlass k = true →
        st.table.lookup k = some (archived_record_init wInfoFmg) →
        ((st.loadingFullModuleGraph = true →
            resolve_or_init_classes_for_subgraph_of st k doInit =
              resolve_subgraph_post_gates st k (archived_record_init wInfoFmg)
                doInit) ∧
         (st.loadingFullModuleGraph = false →
            resolve_or_init_classes_for_subgraph_of st k doInit =
              (none, st))))) :=
  ⟨rfl, c10_fmg_forces_early wInfoFmg rfl⟩

/-- `KlassSubGraphInfo::check_allowed_klass` as a predicate: allowed when
`ArchiveInvokeDynamic` is set, when the klass is in `java.base`, or when it
is a test class in the unnamed package of the unnamed module; otherwise the
source raises an unrecoverable writing error. -/
def check_allowed_klass (h : Heap) (kid : Nat) : Bool :=
  h.archiveInvokeDynamic || (h.klassMeta kid).inJavaBase ||
    (h.klassMeta kid).isTestClass

/-- `KlassSubGraphInfo::is_non_early_klass`: object arrays defer to their
bottom klass; instance klasses are non-early when
`SystemDictionaryShared::is_early_klass` fails; everything else is early. -/
def is_non_early_klass (h : Heap) (kid : Nat) : Bool :=
  match (h.klassMeta kid).kind with
  | KKind.objArrayK true b => !(h.klassMeta b).isEarly
  | KKind.objArrayK false _ => false
  | KKind.instanceK => !(h.klassMeta kid).isEarly
  | KKind.typeArrayK => false

/-- The tail of `add_subgraph_object_klass`: `append_if_missing` plus the
`_has_non_early_klasses` accumulation. -/
def append_subgraph_klass (h : Heap) (info : KlassSubGraphInfo) (kid : Nat) :
    KlassSubGraphInfo :=
  { info with
      objectKlasses :=
        if kid ∈ info.objectKlasses then info.objectKlasses
        else info.objectKlasses ++ [kid],
      hasNonEarlyKlasses :=
        info.hasNonEarlyKlasses || is_non_early_klass h kid }

/-- `KlassSubGraphInfo::add_subgraph_object_klass`: skip the holder itself,
`String`/`Object`, the object-array klass and primitive arrays; `none`
models the fatal `unrecoverable_writing_error` raised by
`check_allowed_klass` on a disallowed klass. -/
def add_subgraph_object_klass (h : Heap) (info : KlassSubGraphInfo)
    (kid : Nat) : Option KlassSubGraphInfo :=
  if info.k = kid then some info
  else
    match (h.klassMeta kid).kind with
    | KKind.instanceK =>
      if (h.klassMeta kid).isStringOrObjectKlass then some info
      else if check_allowed_klass h kid then
        some (append_subgraph_klass h info kid)
      else none
    | KKind.objArrayK bi b =>
      if bi ∧ ¬ check_allowed_klass h b then none
      else if (h.klassMeta kid).isObjectArrayKlassObj then some info
      else some (append_subgraph_klass h info kid)
    | KKind.typeArrayK => some info

/-- Result of one walker invocation: `ok success state info`, a fatal
process abort (`exit_on_error` / `unrecoverable_writing_error`), or fuel
exhaustion (which the termination theorem rules out). -/
inductive WalkRes where
  | ok (b : Bool) (st : DumpState) (info : KlassSubGraphInfo)
  | fatal
  | fuelOut
deriving DecidableEq, Repr

/-- Walk a list of reference fields (the oop iteration of
`WalkOopAndArchiveClosure`, and the enum constant loop): null references
are skipped, non-null ones are processed by `f` (the walk one level
deeper), whose boolean result is discarded exactly as the product-mode
closure discards the asserted `success` flag. -/
def walkList (f : DumpState → KlassSubGraphInfo → Nat → WalkRes) :
    DumpState → KlassSubGraphInfo → List (Option Nat) → WalkRes
  | st, info, [] => WalkRes.ok true st info
  | st, info, none :: rest => walkList f st info rest
  | st, info, some c :: rest =>
    match f st info c with
    | WalkRes.ok _ st' info' => walkList f st' info' rest
    | WalkRes.fatal => WalkRes.fatal
    | WalkRes.fuelOut => WalkRes.fuelOut

/-- The part of `archive_reachable_objects_from` that runs after the object
has been marked seen and archived: record the klass
(`add_subgraph_object_klass`, whose policy violation aborts), iterate every
non-null outgoing reference with the one-level-deeper walk `f`, and finally
process the synthetic constant references of an enum object
(`CDSEnumKlass::handle_enum_obj`, modelled from the spec as walking those
references one level deeper, since `cdsEnumKlass.cpp` is not among the
sources). -/
def walk_after_archive (h : Heap)
    (f : DumpState → KlassSubGraphInfo → Nat → WalkRes)
    (orig : Nat) (info : KlassSubGraphInfo) (st2 : DumpState) : WalkRes :=
  match add_subgraph_object_klass h info (h.obj orig).klass with
  | none => WalkRes.fatal
  | some info1 =>
    match walkList f st2 info1 (h.obj orig).fields with
    | WalkRes.ok _ st3 info2 =>
      if (h.obj orig).isEnum then
        walkList f st3 info2 (h.obj orig).enumConsts
      else WalkRes.ok true st3 info2
    | WalkRes.fatal => WalkRes.fatal
    | WalkRes.fuelOut => WalkRes.fuelOut

/-- `HeapShared::archive_reachable_objects_from`, with explicit fuel for
the recursion: check `is_supported_for_archiving` on the original object,
substitute the scratch mirror for any `java.lang.Class` instance, return
early if seen in this session, mark seen, archive through the identity
cache (a failure is recoverable only at level 1), then continue with
`walk_after_archive`. -/
def archive_reachable_objects_from (h : Heap) :
    Nat → Nat → Option Nat → DumpState → KlassSubGraphInfo → Nat → WalkRes
  | 0, _, _, _, _, _ => WalkRes.fuelOut
  | fuel + 1, level, referrer, st, info, obj =>
    if ¬ (h.obj obj).supported then WalkRes.fatal
    else
      let orig := if (h.obj obj).isMirror then (h.obj obj).scratch else obj
      if orig ∈ st.seen then WalkRes.ok true st info
      else
        let st1 : DumpState := { st with seen := orig :: st.seen }
        if has_been_archived st1 orig then
          walk_after_archive h
            (archive_reachable_objects_from h fuel (level + 1) (some orig))
            orig info st1
        else
          match archive_object h referrer st1 orig with
          | (true, st2) =>
            walk_after_archive h
              (archive_reachable_objects_from h fuel (level + 1) (some orig))
              orig info st2
          | (false, st2) =>
            if level = 1 then WalkRes.ok false st2 info
            else WalkRes.fatal

/-- `KlassSubGraphInfo::add_subgraph_entry_field`: append the offset and a
freshly assigned root index (via `append_root`). -/
def add_subgraph_entry_field (st : DumpState) (info : KlassSubGraphInfo)
    (off : Nat) (v : Option Nat) : DumpState × KlassSubGraphInfo :=
  let p := append_root st v
  (p.2, { info with entryFields := info.entryFields ++ [(off, p.1)] })

/-- `HeapShared::archive_reachable_objects_from_static_field`: read the
mirror's static slot; a null slot still records an entry (with a null
root); a non-null slot walks at level 1 and appends the entry only on
success. -/
def archive_reachable_objects_from_static_field (h : Heap) (fuel : Nat)
    (st : DumpState) (info : KlassSubGraphInfo) (k off : Nat) : WalkRes :=
  match h.staticField k off with
  | some f =>
    match archive_reachable_objects_from h fuel 1 none st info f with
    | WalkRes.ok true st' info' =>
      let p := add_subgraph_entry_field st' info' off (some f)
      WalkRes.ok true p.1 p.2
    | WalkRes.ok false st' info' => WalkRes.ok true st' info'
    | WalkRes.fatal => WalkRes.fatal
    | WalkRes.fuelOut => WalkRes.fuelOut
  | none =>
    let p := add_subgraph_entry_field st info off none
    WalkRes.ok true p.1 p.2

/-- One configured entry point: `(holder klass, static slot offset)`. -/
structure FieldInfo where
  klass : Nat
  offset : Nat
deriving DecidableEq, Repr

/-- Result of `archive_object_subgraphs`. -/
inductive DriverRes where
  | ok (st : DumpState) (tbl : List (Nat × KlassSubGraphInfo))
  | fatal
  | fuelOut
deriving DecidableEq, Repr

/-- The `KlassSubGraphInfo` constructor used by `init_subgraph_info`:
fresh, empty bookkeeping for a holder klass. -/
def init_subgraph_info (k : Nat) (fmg : Bool) : KlassSubGraphInfo :=
  { k := k, isFullModuleGraph := fmg, entryFields := [], objectKlasses := [],
    hasNonEarlyKlasses := false }

/-- The inner loop of `archive_object_subgraphs`: the consecutive fields
sharing the group head's holder, processed within one recording session. -/
def walkGroup (h : Heap) (fuel : Nat) :
    DumpState → KlassSubGraphInfo → List FieldInfo → WalkRes
  | st, info, [] => WalkRes.ok true st info
  | st, info, f :: rest =>
    match archive_reachable_objects_from_static_field h fuel st info
        f.klass f.offset with
    | WalkRes.ok _ st' info' => walkGroup h fuel st' info' rest
    | WalkRes.fatal => WalkRes.fatal
    | WalkRes.fuelOut => WalkRes.fuelOut

/-- `HeapShared::archive_object_subgraphs`: group consecutive fields with
the same holder, start a recording session (fresh subgraph info, fresh
seen-objects table), walk the group, store the session's info and continue
with the remaining fields. -/
def archive_object_subgraphs (h : Heap) (fuel : Nat) (fmg : Bool)
    (st : DumpState) (tbl : List (Nat × KlassSubGraphInfo)) :
    List FieldInfo → DriverRes
  | [] => DriverRes.ok st tbl
  | f :: rest =>
    let group := (f :: rest).takeWhile (fun g => g.klass == f.klass)
    let others := (f :: rest).dropWhile (fun g => g.klass == f.klass)
    let st0 : DumpState := { st with seen := [] }
    match walkGroup h fuel st0 (init_subgraph_info f.klass fmg) group with
    | WalkRes.ok _ st1 info1 =>
      archive_object_subgraphs h fuel fmg st1 ((f.klass, info1) :: tbl) others
    | WalkRes.fatal => DriverRes.fatal
    | WalkRes.fuelOut => DriverRes.fuelOut
termination_by fields => fields.length
decreasing_by
  simp only [List.dropWhile_cons, beq_self_eq_true, if_true]
  exact Nat.lt_succ_of_le (List.dropWhile_suffix _).sublist.length_le

theorem walkList_ok_true (f : DumpState → KlassSubGraphInfo → Nat → WalkRes) :
    ∀ (l : List (Option Nat)) (st : DumpState) (info : KlassSubGraphInfo)
      (b : Bool) (st' : DumpState) (info' : KlassSubGraphInfo),
      walkList f st info l = WalkRes.ok b st' info' → b = true := by
  intro l
  induction l with
  | nil =>
    intro st info b st' info' heq
    simp only [walkList] at heq
    injection heq with hb _ _
    exact hb.symm
  | cons c rest ih =>
    intro st info b st' info' heq
    cases c with
    | none =>
      simp only [walkList] at heq
      exact ih _ _ _ _ _ heq
    | some cv =>
      simp only [walkList] at heq
      cases hf : f st info cv with
      | ok b2 st2 info2 =>
        rw [hf] at heq
        exact ih _ _ _ _ _ heq
      | fatal => rw [hf] at heq; cases heq
      | fuelOut => rw [hf] at heq; cases heq

theorem walk_after_archive_ok_true (h : Heap)
    (f : DumpState → KlassSubGraphInfo → Nat → WalkRes) (orig : Nat)
    (info : KlassSubGraphInfo) (st2 : DumpState) (b : Bool) (st' : DumpState)
    (info' : KlassSubGraphInfo)
    (heq : walk_after_archive h f orig info st2 = WalkRes.ok b st' info') :
    b = true := by
  unfold walk_after_archive at heq
  cases hadd : add_subgraph_object_klass h info (h.obj orig).klass with
  | none => rw [hadd] at heq; cases heq
  | some info1 =>
    rw [hadd] at heq
    dsimp only at heq
    cases hwl : walkList f st2 info1 (h.obj orig).fields with
    | ok b3 st3 info2 =>
      rw [hwl] at heq
      dsimp only at heq
      by_cases hen : (h.obj orig).isEnum
      · rw [if_pos hen] at heq
        exact walkList_ok_true f _ _ _ _ _ _ heq
      · rw [if_neg hen] at heq
        injection heq with hb _ _
        exact hb.symm
    | fatal => rw [hwl] at heq; cases heq
    | fuelOut => rw [hwl] at heq; cases heq

theorem archive_object_false_state (h : Heap) (r : Option Nat)
    (st : DumpState) (o : Nat)
    (hs : (archive_object h r st o).1 = false) :
    (archive_object h r st o).2 = st := by
  by_cases h1 : has_been_archived st o
  · simp [archive_object, h1]
  · by_cases h2 : h.tooLargeSize (h.obj o).size
    · simp [archive_object, h1, h2]
    · by_cases h3 : (h.obj o).isArchivedModule <;>
        simp [archive_object, h1, h2, h3] at hs

/-- A walker call can only report a recoverable failure (`ok false`) from
the level-1 archive-failure branch, which leaves the subgraph info intact
and has only marked the object seen. -/
theorem walker_ok_false (h : Heap) (fuel level : Nat) (ref : Option Nat)
    (st : DumpState) (info : KlassSubGraphInfo) (obj : Nat)
    (st' : DumpState) (info' : KlassSubGraphInfo)
    (heq : archive_reachable_objects_from h fuel level ref st info obj =
      WalkRes.ok false st' info') :
    info' = info ∧ level = 1 ∧
    st' = { st with seen :=
      (if (h.obj obj).isMirror then (h.obj obj).scratch else obj) ::
        st.seen } := by
  cases fuel with
  | zero => simp [archive_reachable_objects_from] at heq
  | succ fuel =>
    rw [archive_reachable_objects_from] at heq
    by_cases hsup : (h.obj obj).supported
    · simp only [hsup, not_true, if_neg, if_false, Bool.true_eq_false,
        not_false_eq_true, ite_true, ite_false] at heq
      set orig := if (h.obj obj).isMirror then (h.obj obj).scratch else obj
        with horig
      by_cases hseen : orig ∈ st.seen
      · rw [if_pos hseen] at heq
        cases heq
      · rw [if_neg hseen] at heq
        by_cases harch :
            has_been_archived { st with seen := orig :: st.seen } orig
        · rw [if_pos harch] at heq
          exact absurd (walk_after_archive_ok_true h _ _ _ _ _ _ _ heq)
            (by simp)
        · rw [if_neg harch] at heq
          cases hao : archive_object h ref { st with seen := orig :: st.seen }
              orig with
          | mk b2 st2 =>
            rw [hao] at heq
            cases b2 with
            | true =>
              dsimp only at heq
              exact absurd (walk_after_archive_ok_true h _ _ _ _ _ _ _ heq)
                (by simp)
            | false =>
              dsimp only at heq
              by_cases hlv : level = 1
              · rw [if_pos hlv] at heq
                injection heq with _ h2 h3
                refine ⟨h3.symm, hlv, ?_⟩
                have : st2 = { st with seen := orig :: st.seen } := by
                  have := archive_object_false_state h ref
                    { st with seen := orig :: st.seen } orig (by rw [hao])
                  rw [hao] at this
                  exact this
                rw [← h2, this]
              · rw [if_neg hlv] at heq
                cases heq
    · rw [if_pos (by simpa using hsup)] at heq
      cases heq

theorem getD_append_len (l : List (Option Nat)) (v : Option Nat) :
    (l ++ [v]).getD l.length none = v := by
  rw [List.getD_append_right l [v] none l.length (Nat.le_refl _)]
  simp

/-- C7: A null static slot still records a `(slot_offset, root_index)` entry
whose root-table value is null, so restoration explicitly nulls the slot;
for a non-null slot the graph walker runs at level 1, and the entry is
appended (with a fresh root holding the value) only when that walk
succeeds — a recoverable failure leaves the entry-field list untouched. -/
theorem c7_entry_recording (h : Heap) (fuel : Nat) (st : DumpState)
    (info : KlassSubGraphInfo) (k off : Nat) :
    (h.staticField k off = none →
      archive_reachable_objects_from_static_field h fuel st info k off =
        WalkRes.ok true
          { st with pendingRoots := st.pendingRoots ++ [none] }
          { info with entryFields :=
              info.entryFields ++ [(off, st.pendingRoots.length)] } ∧
      (st.pendingRoots ++ [none]).getD st.pendingRoots.length none = none) ∧
    (∀ v, h.staticField k off = some v →
      (∀ st' info',
        archive_reachable_objects_from h fuel 1 none st info v =
          WalkRes.ok true st' info' →
        archive_reachable_objects_from_static_field h fuel st info k off =
          WalkRes.ok true
            { st' with pendingRoots := st'.pendingRoots ++ [some v] }
            { info' with entryFields :=
                info'.entryFields ++ [(off, st'.pendingRoots.length)] } ∧
        (st'.pendingRoots ++ [some v]).getD st'.pendingRoots.length none =
          some v) ∧
      (∀ st' info',
        archive_reachable_objects_from h fuel 1 none st info v =
          WalkRes.ok false st' info' →
        archive_reachable_objects_from_static_field h fuel st info k off =
          WalkRes.ok true st' info' ∧
        info'.entryFields = info.entryFields)) := by
  constructor
  · intro hf
    constructor
    · simp [archive_reachable_objects_from_static_field, hf,
        add_subgraph_entry_field, append_root]
    · exact getD_append_len _ _
  · intro v hf
    constructor
    · intro st' info' hwalk
      constructor
      · simp only [archive_reachable_objects_from_static_field, hf]
        rw [hwalk]
        simp [add_subgraph_entry_field, append_root]
      · exact getD_append_len _ _
    · intro st' info' hwalk
      have hinfo := walker_ok_false h fuel 1 none st info v st' info' hwalk
      constructor
      · simp only [archive_reachable_objects_from_static_field, hf]
        rw [hwalk]
      · rw [hinfo.1]

/-- The subgraph info used by witnesses: session for holder klass 100. -/
def wInfo : KlassSubGraphInfo := init_subgraph_info 100 false

theorem c7_witness :
    wHeap.staticField 0 3 = none ∧
    (archive_reachable_objects_from_static_field wHeap 5 emptyDump wInfo 0 3 =
        WalkRes.ok true
          { emptyDump with pendingRoots := emptyDump.pendingRoots ++ [none] }
          { wInfo with entryFields :=
              wInfo.entryFields ++ [(3, emptyDump.pendingRoots.length)] } ∧
     (emptyDump.pendingRoots ++ [none]).getD emptyDump.pendingRoots.length
        none = none) :=
  ⟨rfl, (c7_entry_recording wHeap 5 emptyDump wInfo 0 3).1 rfl⟩

/-- A walk that reaches an unarchived, supported, non-mirror object whose
size exceeds the archiving threshold: `archive_object` fails, which is
recoverable at level 1 (return false after only marking the object seen)
and fatal at any other level. -/
theorem too_large_walk (h : Heap) (fuel level : Nat) (ref : Option Nat)
    (st : DumpState) (info : KlassSubGraphInfo) (v : Nat)
    (hsup : (h.obj v).supported = true)
    (hmir : (h.obj v).isMirror = false)
    (hlarge : h.tooLargeSize (h.obj v).size = true)
    (harch : has_been_archived st v = false)
    (hseen : v ∉ st.seen) :
    archive_reachable_objects_from h (fuel + 1) level ref st info v =
      if level = 1 then
        WalkRes.ok false { st with seen := v :: st.seen } info
      else WalkRes.fatal := by
  have harch' : (st.cache.lookup v).isSome = false := harch
  rw [archive_reachable_objects_from]
  simp [hsup, hmir, hseen, archive_object, has_been_archived, harch', hlarge]

/-- C3: A too-large entry value fails recoverably at level 1: the walk
returns false having only marked the object seen, the static-field
archiver records no entry for the slot, and `archive_object_subgraphs`
completes normally with an empty entry list for the holder; the same
failure at any deeper level is fatal and aborts the dump. -/
theorem c3_too_large_level1_recoverable (h : Heap) (fuel : Nat)
    (st : DumpState) (info : KlassSubGraphInfo) (v : Nat)
    (hsup : (h.obj v).supported = true)
    (hmir : (h.obj v).isMirror = false)
    (hlarge : h.tooLargeSize (h.obj v).size = true)
    (harch : has_been_archived st v = false) :
    (∀ ref, v ∉ st.seen →
      archive_reachable_objects_from h (fuel + 1) 1 ref st info v =
        WalkRes.ok false { st with seen := v :: st.seen } info) ∧
    (∀ level ref, level ≠ 1 → v ∉ st.seen →
      archive_reachable_objects_from h (fuel + 1) level ref st info v =
        WalkRes.fatal) ∧
    (∀ k off, h.staticField k off = some v → v ∉ st.seen →
      archive_reachable_objects_from_static_field h (fuel + 1) st info
          k off =
        WalkRes.ok true { st with seen := v :: st.seen } info) ∧
    (∀ k off fmg tbl, h.staticField k off = some v →
      archive_object_subgraphs h (fuel + 1) fmg st tbl [⟨k, off⟩] =
        DriverRes.ok { st with seen := [v] }
          ((k, init_subgraph_info k fmg) :: tbl) ∧
      (init_subgraph_info k fmg).entryFields = []) := by
  have hlvl1 : ∀ (stx : DumpState) ref, stx.cache = st.cache → v ∉ stx.seen →
      archive_reachable_objects_from h (fuel + 1) 1 ref stx info v =
        WalkRes.ok false { stx with seen := v :: stx.seen } info := by
    intro stx ref hc hseen
    rw [too_large_walk h fuel 1 ref stx info v hsup hmir hlarge
      (by unfold has_been_archived; rw [hc]; exact harch) hseen]
    simp
  have hsf : ∀ (stx : DumpState) (infx : KlassSubGraphInfo) k off,
      stx.cache = st.cache → h.staticField k off = some v → v ∉ stx.seen →
      archive_reachable_objects_from_static_field h (fuel + 1) stx infx
          k off =
        WalkRes.ok true { stx with seen := v :: stx.seen } infx := by
    intro stx infx k off hc hfield hseen
    simp only [archive_reachable_objects_from_static_field, hfield]
    have h1 : archive_reachable_objects_from h (fuel + 1) 1 none stx infx v =
        WalkRes.ok false { stx with seen := v :: stx.seen } infx := by
      rw [too_large_walk h fuel 1 none stx infx v hsup hmir hlarge
        (by unfold has_been_archived; rw [hc]; exact harch) hseen]
      simp
    rw [h1]
  refine ⟨fun ref hseen => hlvl1 st ref rfl hseen, ?_, ?_, ?_⟩
  · intro level ref hlv hseen
    rw [too_large_walk h fuel level ref st info v hsup hmir hlarge harch
      hseen]
    simp [hlv]
  · intro k off hfield hseen
    exact hsf st info k off rfl hfield hseen
  · intro k off fmg tbl hfield
    refine ⟨?_, rfl⟩
    rw [archive_object_subgraphs]
    have hgrp : List.takeWhile (fun g => g.klass == k)
        [(⟨k, off⟩ : FieldInfo)] = [⟨k, off⟩] := by simp [List.takeWhile]
    have hoth : List.dropWhile (fun g => g.klass == k)
        [(⟨k, off⟩ : FieldInfo)] = [] := by simp [List.dropWhile]
    dsimp only
    rw [hgrp, hoth]
    have hwg : walkGroup h (fuel + 1) { st with seen := [] }
        (init_subgraph_info k fmg) [⟨k, off⟩] =
        WalkRes.ok true { st with seen := [v] }
          (init_subgraph_info k fmg) := by
      simp only [walkGroup]
      rw [hsf { st with seen := [] } (init_subgraph_info k fmg) k off rfl
        hfield (by simp)]
    rw [hwg]
    dsimp only
    rw [archive_object_subgraphs]

/-- A heap whose single object (id 0) exceeds the archiving size
threshold, and is the value of every configured static slot. -/
def wHeapBig : Heap :=
  { n := 1,
    obj := fun _ =>
      { size := 100, fields := [], isMirror := false, scratch := 0,
        supported := true, klass := 0, isEnum := false,
        enumConsts := [], isArchivedModule := false },
    klassMeta := fun _ =>
      { kind := KKind.instanceK, isStringOrObjectKlass := false,
        inJavaBase := true, isTestClass := false, isEarly := true,
        isObjectArrayKlassObj := false },
    tooLargeSize := fun s => decide (s > 50),
    archiveInvokeDynamic := false,
    staticField := fun _ _ => some 0 }

theorem c3_witness :
    ((wHeapBig.obj 0).supported = true ∧
     (wHeapBig.obj 0).isMirror = false ∧
     wHeapBig.tooLargeSize (wHeapBig.obj 0).size = true ∧
     has_been_archived emptyDump 0 = false) ∧
    ((∀ ref, 0 ∉ emptyDump.seen →
      archive_reachable_objects_from wHeapBig 3 1 ref emptyDump wInfo 0 =
        WalkRes.ok false { emptyDump with seen := [0] } wInfo) ∧
     (∀ level ref, level ≠ 1 → 0 ∉ emptyDump.seen →
      archive_reachable_objects_from wHeapBig 3 level ref emptyDump wInfo 0 =
        WalkRes.fatal) ∧
     (∀ k off, wHeapBig.staticField k off = some 0 → 0 ∉ emptyDump.seen →
      archive_reachable_objects_from_static_field wHeapBig 3 emptyDump wInfo
          k off =
        WalkRes.ok true { emptyDump with seen := [0] } wInfo) ∧
     (∀ k off fmg tbl, wHeapBig.staticField k off = some 0 →
      archive_object_subgraphs wHeapBig 3 fmg emptyDump tbl [⟨k, off⟩] =
        DriverRes.ok { emptyDump with seen := [0] }
          ((k, init_subgraph_info k fmg) :: tbl) ∧
      (init_subgraph_info k fmg).entryFields = [])) :=
  ⟨⟨rfl, rfl, by decide, rfl⟩,
   c3_too_large_level1_recoverable wHeapBig 2 emptyDump wInfo 0 rfl rfl
     (by decide) rfl⟩

/-- The mirrors accepted by `HeapShared::can_mirror_be_used_in_subgraph`:
the primitive-type mirrors plus the mirrors of the box classes, `Void`
and `Object`. -/
structure MirrorAllowList where
  isPrimitive : Nat → Bool
  booleanMirror : Nat
  characterMirror : Nat
  floatMirror : Nat
  doubleMirror : Nat
  byteMirror : Nat
  shortMirror : Nat
  integerMirror : Nat
  longMirror : Nat
  voidMirror : Nat
  objectMirror : Nat

/-- `HeapShared::can_mirror_be_used_in_subgraph`: note that in the sources
this helper is referenced only from a compiled-out (`#if 0`) branch of
`archive_reachable_objects_from`; the active branch substitutes the
scratch mirror for every `java.lang.Class` instance without consulting
this allow-list. -/
def can_mirror_be_used_in_subgraph (al : MirrorAllowList) (m : Nat) : Bool :=
  al.isPrimitive m || m == al.booleanMirror || m == al.characterMirror ||
    m == al.floatMirror || m == al.doubleMirror || m == al.byteMirror ||
    m == al.shortMirror || m == al.integerMirror || m == al.longMirror ||
    m == al.voidMirror || m == al.objectMirror

/-- An allow-list whose entries are all distinct from objects 1 and 2. -/
def wAllow : MirrorAllowList :=
  { isPrimitive := fun _ => false,
    booleanMirror := 90, characterMirror := 91, floatMirror := 92,
    doubleMirror := 93, byteMirror := 94, shortMirror := 95,
    integerMirror := 96, longMirror := 97, voidMirror := 98,
    objectMirror := 99 }

/-- A heap in which the entry value (object 0) references a class mirror
(object 1, not on the allow-list) mid-graph; object 2 is its scratch
mirror. -/
def wMirrorHeap : Heap :=
  { n := 3,
    obj := fun o =>
      if o = 0 then
        { size := 1, fields := [some 1], isMirror := false, scratch := 0,
          supported := true, klass := 0, isEnum := false, enumConsts := [],
          isArchivedModule := false }
      else
        { size := 1, fields := [], isMirror := true, scratch := 2,
          supported := true, klass := 5, isEnum := false, enumConsts := [],
          isArchivedModule := false },
    klassMeta := fun _ =>
      { kind := KKind.instanceK, isStringOrObjectKlass := false,
        inJavaBase := true, isTestClass := false, isEarly := true,
        isObjectArrayKlassObj := false },
    tooLargeSize := fun _ => false,
    archiveInvokeDynamic := false,
    staticField := fun _ _ => some 0 }

/-- C5 counterexample: object 1 is a class mirror encountered mid-graph
(it is not the entry point, which is object 0) and is not on the
allow-list, yet the dump does not raise a hard error: the walk succeeds,
embedding the scratch mirror (object 2) in the identity cache. -/
theorem c5_counterexample :
    (wMirrorHeap.obj 1).isMirror = true ∧
    can_mirror_be_used_in_subgraph wAllow 1 = false ∧
    can_mirror_be_used_in_subgraph wAllow 2 = false ∧
    archive_reachable_objects_from wMirrorHeap 3 1 none emptyDump wInfo 0 =
      WalkRes.ok true
        { cache := [(0, { referrer := none }), (2, { referrer := some 0 })],
          pendingRoots := [],
          seen := [2, 0],
          sourceObjs := [0, 2],
          events := [AEvent.addSource 0, AEvent.hashed 0, AEvent.cachePut 0,
                     AEvent.addSource 2, AEvent.hashed 2,
                     AEvent.cachePut 2] }
        { k := 100, isFullModuleGraph := false, entryFields := [],
          objectKlasses := [0, 5], hasNonEarlyKlasses := false } ∧
    has_been_archived
        { cache := [(0, { referrer := none }), (2, { referrer := some 0 })],
          pendingRoots := [], seen := [2, 0], sourceObjs := [0, 2],
          events := [AEvent.addSource 0, AEvent.hashed 0, AEvent.cachePut 0,
                     AEvent.addSource 2, AEvent.hashed 2,
                     AEvent.cachePut 2] } 2 = true := by
  refine ⟨rfl, by decide, by decide, by decide, by decide⟩

/-- C5 as amended: a class mirror encountered anywhere in a walk is not a
hard error; it is redirected to its scratch mirror before the visited
check, so walking the mirror is the same as walking its scratch stand-in
(scratch mirrors are themselves `java.lang.Class` instances on which the
substitution is idempotent, per `HeapShared::scratch_java_mirror`). -/
theorem c5_mirror_substitution (h : Heap) (fuel level : Nat)
    (ref : Option Nat) (st : DumpState) (info : KlassSubGraphInfo)
    (obj : Nat)
    (hmir : (h.obj obj).isMirror = true)
    (hsup : (h.obj obj).supported = true)
    (hsups : (h.obj ((h.obj obj).scratch)).supported = true)
    (hmirs : (h.obj ((h.obj obj).scratch)).isMirror = true)
    (hidem : (h.obj ((h.obj obj).scratch)).scratch = (h.obj obj).scratch) :
    archive_reachable_objects_from h (fuel + 1) level ref st info obj =
      archive_reachable_objects_from h (fuel + 1) level ref st info
        ((h.obj obj).scratch) := by
  rw [archive_reachable_objects_from, archive_reachable_objects_from]
  simp [hmir, hmirs, hsup, hsups, hidem]

theorem c5_witness :
    ((wMirrorHeap.obj 1).isMirror = true ∧
     (wMirrorHeap.obj 1).supported = true ∧
     (wMirrorHeap.obj ((wMirrorHeap.obj 1).scratch)).supported = true ∧
     (wMirrorHeap.obj ((wMirrorHeap.obj 1).scratch)).isMirror = true ∧
     (wMirrorHeap.obj ((wMirrorHeap.obj 1).scratch)).scratch =
       (wMirrorHeap.obj 1).scratch) ∧
    archive_reachable_objects_from wMirrorHeap 3 2 (some 0) emptyDump wInfo
        1 =
      archive_reachable_objects_from wMirrorHeap 3 2 (some 0) emptyDump
        wInfo ((wMirrorHeap.obj 1).scratch) :=
  ⟨⟨rfl, rfl, rfl, rfl, rfl⟩,
   c5_mirror_substitution wMirrorHeap 2 2 (some 0) emptyDump wInfo 1 rfl rfl
     rfl rfl rfl⟩

/-- A runtime root-table entry: either a plain object slot or one of the
reserved tail `permobj` segment arrays (each an `objArrayOop`). -/
inductive RootEntry where
  | obj (o : Option Nat)
  | seg (s : List Nat)
deriving DecidableEq, Repr

/-- The runtime roots array with its reserved tail of `_permobj_segments`
blocks.  Modelled from the spec: the segment layout and the
`PERMOBJ_SEGMENT_MAX_SHIFT` / `MASK` constants live in
`ArchiveHeapWriter`, which is not among the sources; the spec describes a
reserved tail segment of nested fixed-size blocks mapping an object to
`(block_index << SHIFT) | offset_within_block`, so the shift is kept as a
parameter and each block is assumed to fit in `2 ^ shift` slots. -/
structure PermRoots where
  mainRoots : List (Option Nat)
  segments : List (List Nat)
  shift : Nat

/-- The full `roots()` array: ordinary roots followed by the segments. -/
def PermRoots.rootsList (m : PermRoots) : List RootEntry :=
  m.mainRoots.map RootEntry.obj ++ m.segments.map RootEntry.seg

/-- `HeapShared::_permobj_segments`. -/
def PermRoots.permobjSegments (m : PermRoots) : Nat := m.segments.length

/-- `HeapShared::get_archived_object`: split the permanent index into
`upper = index >> SHIFT` and `lower = index & MASK`, then read
`roots()->obj_at(upper + first_permobj_segment)->obj_at(lower)`; `none`
models an out-of-range array access. -/
def get_archived_object (m : PermRoots) (permanentIndex : Nat) :
    Option Nat :=
  let first := m.rootsList.length - m.permobjSegments
  let upper := permanentIndex >>> m.shift
  let lower := permanentIndex &&& (2 ^ m.shift - 1)
  match m.rootsList.get? (upper + first) with
  | some (RootEntry.seg a) => a.get? lower
  | _ => none

/-- The `(object, index)` pairs inserted while lazily building
`_permanent_index_table`: segment `i`, offset `j` yields
`(i << SHIFT) + j`. -/
def permPairs (m : PermRoots) : List (Nat × Nat) :=
  (m.segments.enum.map (fun p =>
    p.2.enum.map (fun q => (q.2, (p.1 <<< m.shift) + q.1)))).flatten

/-- `HeapShared::get_archived_object_permanent_index`: `-1` when there are
no permobj segments or the object is not in the table; otherwise the
index stored by the last `put` for the object
(`ResourceHashtable::put` overwrites, so a reverse lookup). -/
def get_archived_object_permanent_index (m : PermRoots) (o : Nat) : Int :=
  if m.permobjSegments ≤ 0 then -1
  else
    match (permPairs m).reverse.lookup o with
    | some idx => Int.ofNat idx
    | none => -1

theorem lookup_mem {β : Type} (l : List (Nat × β)) (o : Nat) (v : β)
    (h : l.lookup o = some v) : (o, v) ∈ l := by
  induction l with
  | nil => cases h
  | cons a t ih =>
    obtain ⟨k, w⟩ := a
    cases hbk : (o == k) with
    | true =>
      have hok : o = k := by simpa using hbk
      simp only [List.lookup, hbk] at h
      injection h with hw
      simp [hok, hw]
    | false =>
      simp only [List.lookup, hbk] at h
      exact List.mem_cons_of_mem _ (ih h)

/-- Decomposition of a permanent-index pair. -/
theorem permPairs_mem (m : PermRoots) (o idx : Nat)
    (h : (o, idx) ∈ permPairs m) :
    ∃ i j s, m.segments.get? i = some s ∧ s.get? j = some o ∧
      idx = (i <<< m.shift) + j := by
  unfold permPairs at h
  rw [List.mem_flatten] at h
  obtain ⟨inner, hinner, hmem⟩ := h
  rw [List.mem_map] at hinner
  obtain ⟨p, hp, hpe⟩ := hinner
  obtain ⟨i, s⟩ := p
  rw [← hpe, List.mem_map] at hmem
  obtain ⟨q, hq, hqe⟩ := hmem
  obtain ⟨j, a⟩ := q
  injection hqe with h1 h2
  have hs : m.segments[i]? = some s := List.mem_enum_iff_getElem?.mp hp
  have ha : s[j]? = some a := List.mem_enum_iff_getElem?.mp hq
  refine ⟨i, j, s, ?_, ?_, h2.symm⟩
  · rw [List.get?_eq_getElem?]
    exact hs
  · rw [List.get?_eq_getElem?, ha]
    exact congrArg some h1

/-- Construction of a permanent-index pair. -/
theorem permPairs_intro (m : PermRoots) (o : Nat) (i j : Nat)
    (s : List Nat) (hs : m.segments.get? i = some s)
    (hj : s.get? j = some o) :
    (o, (i <<< m.shift) + j) ∈ permPairs m := by
  unfold permPairs
  rw [List.mem_flatten]
  refine ⟨s.enum.map (fun q => (q.2, (i <<< m.shift) + q.1)), ?_, ?_⟩
  · rw [List.mem_map]
    refine ⟨(i, s), ?_, rfl⟩
    rw [List.mem_enum_iff_getElem?]
    rw [List.get?_eq_getElem?] at hs
    exact hs
  · rw [List.mem_map]
    refine ⟨(j, o), ?_, rfl⟩
    rw [List.mem_enum_iff_getElem?]
    rw [List.get?_eq_getElem?] at hj
    exact hj

theorem perm_index_decode (m : PermRoots) (i j : Nat)
    (hj : j < 2 ^ m.shift) :
    ((i <<< m.shift) + j) >>> m.shift = i ∧
    ((i <<< m.shift) + j) &&& (2 ^ m.shift - 1) = j := by
  have hpos : 0 < 2 ^ m.shift := Nat.two_pow_pos m.shift
  constructor
  · rw [Nat.shiftLeft_eq, Nat.shiftRight_eq_div_pow, Nat.add_comm,
      Nat.add_mul_div_right _ _ hpos, Nat.div_eq_of_lt hj]
    exact Nat.zero_add i
  · rw [Nat.shiftLeft_eq, Nat.and_pow_two_sub_one_eq_mod,
      Nat.mul_comm i (2 ^ m.shift), Nat.mul_add_mod]
    exact Nat.mod_eq_of_lt hj

theorem rootsList_get_segment (m : PermRoots) (i : Nat) (s : List Nat)
    (hs : m.segments.get? i = some s) :
    m.rootsList.get?
      (i + (m.rootsList.length - m.permobjSegments)) =
        some (RootEntry.seg s) := by
  have hlen : m.rootsList.length =
      m.mainRoots.length + m.segments.length := by
    simp [PermRoots.rootsList]
  have hfirst : m.rootsList.length - m.permobjSegments =
      m.mainRoots.length := by
    rw [hlen]
    unfold PermRoots.permobjSegments
    omega
  rw [hfirst, List.get?_eq_getElem?, PermRoots.rootsList,
    List.getElem?_append_right (by simp [Nat.le_add_left])]
  simp only [List.length_map]
  rw [Nat.add_sub_cancel, List.getElem?_map]
  rw [List.get?_eq_getElem?] at hs
  rw [hs]
  rfl

/-- C8: assuming each permobj block fits in `2 ^ SHIFT` slots (the layout
guarantee of the external `ArchiveHeapWriter`), the permanent-index table
round-trips: every object held in a tail segment maps to an index that
`get_archived_object` decodes back to the same object, and objects not in
the tail segments map to `-1`. -/
theorem c8_permanent_index_roundtrip (m : PermRoots)
    (hseg : ∀ s ∈ m.segments, s.length ≤ 2 ^ m.shift) :
    (∀ o, (∃ s ∈ m.segments, o ∈ s) →
      ∃ idx : Nat,
        get_archived_object_permanent_index m o = Int.ofNat idx ∧
        get_archived_object m idx = some o) ∧
    (∀ o, (∀ s ∈ m.segments, o ∉ s) →
      get_archived_object_permanent_index m o = -1) := by
  constructor
  · intro o hos
    obtain ⟨s, hsmem, hois⟩ := hos
    have hnonempty : ¬ m.permobjSegments ≤ 0 := by
      unfold PermRoots.permobjSegments
      have : m.segments ≠ [] := by
        intro hnil
        rw [hnil] at hsmem
        cases hsmem
      simpa [Nat.pos_iff_ne_zero] using
        List.length_pos.mpr this
    obtain ⟨i, hi⟩ := List.mem_iff_getElem?.mp hsmem
    obtain ⟨j, hjel⟩ := List.mem_iff_getElem?.mp hois
    have hpair : (o, (i <<< m.shift) + j) ∈ permPairs m :=
      permPairs_intro m o i j s (by rw [List.get?_eq_getElem?]; exact hi)
        (by rw [List.get?_eq_getElem?]; exact hjel)
    have hkeys : o ∈ (permPairs m).reverse.map Prod.fst := by
      rw [List.map_reverse, List.mem_reverse, List.mem_map]
      exact ⟨(o, (i <<< m.shift) + j), hpair, rfl⟩
    cases hlook : (permPairs m).reverse.lookup o with
    | none => exact absurd hkeys (lookup_eq_none_not_mem_keys _ _ hlook)
    | some idx =>
      refine ⟨idx, ?_, ?_⟩
      · unfold get_archived_object_permanent_index
        rw [if_neg hnonempty, hlook]
      · have hmem : (o, idx) ∈ permPairs m := by
          rw [← List.mem_reverse]
          exact lookup_mem _ _ _ hlook
        obtain ⟨i', j', s', hi', hj', hidx⟩ := permPairs_mem m o idx hmem
        have hs'mem : s' ∈ m.segments := by
          rw [List.get?_eq_getElem?] at hi'
          exact List.getElem?_mem hi'
        have hj'lt : j' < 2 ^ m.shift := by
          rw [List.get?_eq_getElem?] at hj'
          exact Nat.lt_of_lt_of_le (List.getElem?_eq_some.mp hj').1
            (hseg s' hs'mem)
        obtain ⟨hup, hlo⟩ := perm_index_decode m i' j' hj'lt
        unfold get_archived_object
        rw [hidx, hup, hlo]
        dsimp only
        rw [rootsList_get_segment m i' s' hi']
        exact hj'
  · intro o hno
    unfold get_archived_object_permanent_index
    by_cases hle : m.permobjSegments ≤ 0
    · rw [if_pos hle]
    · rw [if_neg hle]
      cases hlook : (permPairs m).reverse.lookup o with
      | none => rfl
      | some idx =>
        exfalso
        have hmem : (o, idx) ∈ permPairs m := by
          rw [← List.mem_reverse]
          exact lookup_mem _ _ _ hlook
        obtain ⟨i', j', s', hi', hj', _⟩ := permPairs_mem m o idx hmem
        rw [List.get?_eq_getElem?] at hi' hj'
        exact hno s' (List.getElem?_mem hi') (List.getElem?_mem hj')

/-- A root table with two ordinary roots and two permobj tail segments. -/
def wPerm : PermRoots :=
  { mainRoots := [some 4, some 5],
    segments := [[10, 11], [12]],
    shift := 2 }

theorem c8_witness :
    (∀ s ∈ wPerm.segments, s.length ≤ 2 ^ wPerm.shift) ∧
    ((∀ o, (∃ s ∈ wPerm.segments, o ∈ s) →
      ∃ idx : Nat,
        get_archived_object_permanent_index wPerm o = Int.ofNat idx ∧
        get_archived_object wPerm idx = some o) ∧
     (∀ o, (∀ s ∈ wPerm.segments, o ∉ s) →
      get_archived_object_permanent_index wPerm o = -1)) :=
  ⟨by decide, c8_permanent_index_roundtrip wPerm (by decide)⟩

/-- Modelled from the spec: `ArchiveHeapWriter::write` runs after the dump
pass and copies every recorded source object into the archive buffer (the
writer itself is not among the sources; the spec says the graph walker
only records objects and the relocation/copy is the archive builder's). -/
def archive_heap_write (st : DumpState) : DumpState :=
  { st with events := st.events ++ st.sourceObjs.map AEvent.copied }

/-- Every `copied o` event in the log is preceded by a `hashed o` event:
the identity hash was fixed in the object header before any copy. -/
def hashBeforeCopy (l : List AEvent) : Prop :=
  ∀ o l1 l2, l = l1 ++ AEvent.copied o :: l2 → AEvent.hashed o ∈ l1

/-- Dump-phase invariant: no copy has happened yet, and every recorded
source object already had its identity hash computed. -/
def DumpInv (st : DumpState) : Prop :=
  (∀ o, AEvent.copied o ∉ st.events) ∧
  (∀ o, o ∈ st.sourceObjs → AEvent.hashed o ∈ st.events)

theorem write_hash_before_copy (st : DumpState) (hinv : DumpInv st) :
    hashBeforeCopy (archive_heap_write st).events := by
  intro o l1 l2 hsplit
  unfold archive_heap_write at hsplit
  dsimp only at hsplit
  rcases List.append_eq_append_iff.mp hsplit.symm with ⟨a', hc, hb⟩ |
    ⟨c', ha, hd⟩
  · cases a' with
    | nil =>
      simp only [List.nil_append] at hb
      have hmem : AEvent.copied o ∈ st.sourceObjs.map AEvent.copied :=
        hb ▸ List.mem_cons_self _ _
      rw [List.mem_map] at hmem
      obtain ⟨x, hx, hxe⟩ := hmem
      injection hxe with hxo
      rw [List.append_nil] at hc
      exact hc ▸ hinv.2 o (hxo ▸ hx)
    | cons x a'' =>
      exfalso
      rw [List.cons_append] at hb
      injection hb with h1 _
      apply hinv.1 o
      rw [hc, ← h1]
      exact List.mem_append_right _ (List.mem_cons_self _ _)
  · have hmem : AEvent.copied o ∈ st.sourceObjs.map AEvent.copied := by
      rw [hd]
      exact List.mem_append_right _ (List.mem_cons_self _ _)
    rw [List.mem_map] at hmem
    obtain ⟨x, hx, hxe⟩ := hmem
    injection hxe with hxo
    rw [ha]
    exact List.mem_append_left _ (hinv.2 o (hxo ▸ hx))

/-- C9: on every successful first-time `archive_object`, the object's
identity hash is computed (recorded in the event log) during the call,
while no copy exists yet; consequently, once the external writer performs
its copies after the dump pass, every copy of the object is preceded by
the hash computation, so the hash observed after restoration is the
natively computed one. -/
theorem c9_hash_before_copy (h : Heap) (r : Option Nat) (st : DumpState)
    (o : Nat) (hinv : DumpInv st)
    (hnew : has_been_archived st o = false)
    (hsucc : (archive_object h r st o).1 = true) :
    DumpInv (archive_object h r st o).2 ∧
    AEvent.hashed o ∈ (archive_object h r st o).2.events ∧
    o ∈ (archive_object h r st o).2.sourceObjs ∧
    (∀ o', AEvent.copied o' ∉ (archive_object h r st o).2.events) ∧
    hashBeforeCopy (archive_heap_write (archive_object h r st o).2).events
    := by
  have hb : ¬ has_been_archived st o = true := by simp [hnew]
  by_cases h2 : h.tooLargeSize (h.obj o).size
  · simp [archive_object, hb, h2] at hsucc
  · have hstate : ∀ stx : DumpState,
        stx.events = st.events ++
          [AEvent.addSource o, AEvent.hashed o, AEvent.cachePut o] →
        stx.sourceObjs = st.sourceObjs ++ [o] →
        DumpInv stx ∧ AEvent.hashed o ∈ stx.events ∧
        o ∈ stx.sourceObjs ∧ (∀ o', AEvent.copied o' ∉ stx.events) := by
      intro stx hev hso
      have hnocopy : ∀ o', AEvent.copied o' ∉ stx.events := by
        intro o' hmem
        rw [hev] at hmem
        rcases List.mem_append.mp hmem with hm | hm
        · exact hinv.1 o' hm
        · simp at hm
      refine ⟨⟨hnocopy, ?_⟩, ?_, ?_, hnocopy⟩
      · intro o' ho'
        rw [hso] at ho'
        rw [hev]
        rcases List.mem_append.mp ho' with hm | hm
        · exact List.mem_append_left _ (hinv.2 o' hm)
        · simp at hm
          rw [hm]
          apply List.mem_append_right
          simp
      · rw [hev]
        apply List.mem_append_right
        simp
      · rw [hso]
        apply List.mem_append_right
        simp
    have happ : DumpInv (archive_object h r st o).2 ∧
        AEvent.hashed o ∈ (archive_object h r st o).2.events ∧
        o ∈ (archive_object h r st o).2.sourceObjs ∧
        (∀ o', AEvent.copied o' ∉ (archive_object h r st o).2.events) := by
      by_cases h3 : (h.obj o).isArchivedModule
      · exact hstate _ (by simp [archive_object, hb, h2, h3, append_root])
          (by simp [archive_object, hb, h2, h3, append_root])
      · exact hstate _ (by simp [archive_object, hb, h2, h3])
          (by simp [archive_object, hb, h2, h3])
    exact ⟨happ.1, happ.2.1, happ.2.2.1, happ.2.2.2,
      write_hash_before_copy _ happ.1⟩

theorem c9_witness :
    (DumpInv emptyDump ∧ has_been_archived emptyDump 0 = false ∧
     (archive_object wHeap none emptyDump 0).1 = true) ∧
    (DumpInv (archive_object wHeap none emptyDump 0).2 ∧
     AEvent.hashed 0 ∈ (archive_object wHeap none emptyDump 0).2.events ∧
     0 ∈ (archive_object wHeap none emptyDump 0).2.sourceObjs ∧
     (∀ o', AEvent.copied o' ∉
        (archive_object wHeap none emptyDump 0).2.events) ∧
     hashBeforeCopy
       (archive_heap_write (archive_object wHeap none emptyDump 0).2).events)
    :=
  ⟨⟨⟨by simp [emptyDump], by simp [emptyDump]⟩, rfl, by decide⟩,
   c9_hash_before_copy wHeap none emptyDump 0
     ⟨by simp [emptyDump], by simp [emptyDump]⟩ rfl (by decide)⟩

/-- The number of heap objects not yet in the session visited set: the
termination measure of the graph walk. -/
def unseenCount (h : Heap) (st : DumpState) : Nat :=
  ((Finset.range h.n).filter (fun o => o ∉ st.seen)).card

/-- Well-formedness of a heap: scratch mirrors and all outgoing references
(fields and enum constants) stay within the object range. -/
def Heap.wf (h : Heap) : Prop :=
  ∀ o, o < h.n →
    ((h.obj o).isMirror = true → (h.obj o).scratch < h.n) ∧
    (∀ c ∈ (h.obj o).fields.filterMap id, c < h.n) ∧
    (∀ c ∈ (h.obj o).enumConsts.filterMap id, c < h.n)

theorem wf_fields (h : Heap) (hwf : Heap.wf h) (o : Nat) (ho : o < h.n) :
    ∀ c, some c ∈ (h.obj o).fields → c < h.n := by
  intro c hc
  apply (hwf o ho).2.1
  rw [List.mem_filterMap]
  exact ⟨some c, hc, rfl⟩

theorem wf_enum (h : Heap) (hwf : Heap.wf h) (o : Nat) (ho : o < h.n) :
    ∀ c, some c ∈ (h.obj o).enumConsts → c < h.n := by
  intro c hc
  apply (hwf o ho).2.2
  rw [List.mem_filterMap]
  exact ⟨some c, hc, rfl⟩

/-- What one walker call guarantees about the state on a non-fatal return:
the visited set only grows, and duplicate-freedom of the identity cache is
preserved. -/
def walkStep (st st' : DumpState) : Prop :=
  st.seen ⊆ st'.seen ∧ ((cacheKeys st).Nodup → (cacheKeys st').Nodup)

theorem unseenCount_mono (h : Heap) (st st2 : DumpState)
    (hsub : st.seen ⊆ st2.seen) : unseenCount h st2 ≤ unseenCount h st := by
  apply Finset.card_le_card
  apply Finset.monotone_filter_right
  intro x hx
  exact fun hmem => hx (hsub hmem)

theorem unseenCount_mark (h : Heap) (st : DumpState) (o : Nat)
    (ho : o < h.n) (hseen : o ∉ st.seen) :
    unseenCount h { st with seen := o :: st.seen } + 1 = unseenCount h st := by
  unfold unseenCount
  dsimp only
  have hset : (Finset.range h.n).filter (fun x => x ∉ o :: st.seen) =
      ((Finset.range h.n).filter (fun x => x ∉ st.seen)).erase o := by
    ext a
    simp only [Finset.mem_filter, Finset.mem_erase, Finset.mem_range,
      List.mem_cons, not_or]
    constructor
    · rintro ⟨h1, h2, h3⟩
      exact ⟨h2, h1, h3⟩
    · rintro ⟨h1, h2, h3⟩
      exact ⟨h2, h1, h3⟩
  rw [hset]
  exact Finset.card_erase_add_one
    (by simp [Finset.mem_filter, Finset.mem_range, ho, hseen])

theorem archive_object_seen_eq (h : Heap) (r : Option Nat) (st : DumpState)
    (o : Nat) : (archive_object h r st o).2.seen = st.seen := by
  by_cases h1 : has_been_archived st o
  · simp [archive_object, h1]
  · by_cases h2 : h.tooLargeSize (h.obj o).size
    · simp [archive_object, h1, h2]
    · by_cases h3 : (h.obj o).isArchivedModule <;>
        simp [archive_object, h1, h2, h3, append_root]

theorem archive_object_nodup (h : Heap) (r : Option Nat) (st : DumpState)
    (o : Nat) (hnd : (cacheKeys st).Nodup) :
    (cacheKeys (archive_object h r st o).2).Nodup := by
  by_cases h1 : has_been_archived st o
  · simpa [archive_object, h1] using hnd
  · by_cases h2 : h.tooLargeSize (h.obj o).size
    · simpa [archive_object, h1, h2] using hnd
    · have h1' : ¬ (st.cache.lookup o).isSome = true := h1
      have hnone : st.cache.lookup o = none :=
        Option.not_isSome_iff_eq_none.mp h1'
      have hmem : o ∉ cacheKeys st := lookup_eq_none_not_mem_keys _ _ hnone
      have hkeys : cacheKeys (archive_object h r st o).2 =
          cacheKeys st ++ [o] := by
        by_cases h3 : (h.obj o).isArchivedModule
        · simp [archive_object, h1, h2, h3, append_root, cacheKeys]
        · simp [archive_object, h1, h2, h3, cacheKeys]
      rw [hkeys, ← List.concat_eq_append]
      exact List.Nodup.concat hmem hnd

theorem walker_fuel_aux (h : Heap) (hwf : Heap.wf h) :
    ∀ fuel : Nat,
      (∀ level ref st info obj, obj < h.n → unseenCount h st < fuel →
        (archive_reachable_objects_from h fuel level ref st info obj ≠
          WalkRes.fuelOut) ∧
        (∀ b st' info',
          archive_reachable_objects_from h fuel level ref st info obj =
            WalkRes.ok b st' info' →
          walkStep st st' ∧
          (if (h.obj obj).isMirror then (h.obj obj).scratch else obj) ∈
            st'.seen)) ∧
      (∀ level par st info l, (∀ c, some c ∈ l → c < h.n) →
        unseenCount h st < fuel →
        (walkList (archive_reachable_objects_from h fuel level par) st info
            l ≠ WalkRes.fuelOut) ∧
        (∀ b st' info',
          walkList (archive_reachable_objects_from h fuel level par) st info
            l = WalkRes.ok b st' info' → walkStep st st')) := by
  intro fuel
  induction fuel with
  | zero =>
    constructor
    · intro level ref st info obj hobj hlt
      exact absurd hlt (Nat.not_lt_zero _)
    · intro level par st info l hl hlt
      exact absurd hlt (Nat.not_lt_zero _)
  | succ fuel ih =>
    obtain ⟨ihAr, ihWf⟩ := ih
    have hWAA : ∀ (level orig : Nat) (info : KlassSubGraphInfo)
        (st2 : DumpState), orig < h.n → unseenCount h st2 < fuel →
        (walk_after_archive h
            (archive_reachable_objects_from h fuel (level + 1) (some orig))
            orig info st2 ≠ WalkRes.fuelOut) ∧
        (∀ b st' info',
          walk_after_archive h
            (archive_reachable_objects_from h fuel (level + 1) (some orig))
            orig info st2 = WalkRes.ok b st' info' → walkStep st2 st') := by
      intro level orig info st2 horig hfu
      cases hadd : add_subgraph_object_klass h info (h.obj orig).klass with
      | none =>
        have hres : walk_after_archive h
            (archive_reachable_objects_from h fuel (level + 1) (some orig))
            orig info st2 = WalkRes.fatal := by
          simp only [walk_after_archive, hadd]
        rw [hres]
        exact ⟨fun hc => WalkRes.noConfusion hc,
          fun b st' i' heq => WalkRes.noConfusion heq⟩
      | some info1 =>
        have hfwf : ∀ c, some c ∈ (h.obj orig).fields → c < h.n :=
          wf_fields h hwf orig horig
        obtain ⟨hwl1ne, hwl1ok⟩ := ihWf (level + 1) (some orig) st2 info1
          (h.obj orig).fields hfwf hfu
        cases hwl : walkList (archive_reachable_objects_from h fuel
            (level + 1) (some orig)) st2 info1 (h.obj orig).fields with
        | fuelOut => exact absurd hwl hwl1ne
        | fatal =>
          have hres : walk_after_archive h
              (archive_reachable_objects_from h fuel (level + 1) (some orig))
              orig info st2 = WalkRes.fatal := by
            simp only [walk_after_archive, hadd, hwl]
          rw [hres]
          exact ⟨fun hc => WalkRes.noConfusion hc,
            fun b st' i' heq => WalkRes.noConfusion heq⟩
        | ok b3 st3 info2 =>
          have hstep1 : walkStep st2 st3 := hwl1ok b3 st3 info2 hwl
          by_cases hen : (h.obj orig).isEnum
          · have hfu3 : unseenCount h st3 < fuel :=
              Nat.lt_of_le_of_lt (unseenCount_mono h st2 st3 hstep1.1) hfu
            obtain ⟨hwl2ne, hwl2ok⟩ := ihWf (level + 1) (some orig) st3
              info2 (h.obj orig).enumConsts (wf_enum h hwf orig horig) hfu3
            have hres : walk_after_archive h
                (archive_reachable_objects_from h fuel (level + 1)
                  (some orig)) orig info st2 =
                walkList (archive_reachable_objects_from h fuel (level + 1)
                  (some orig)) st3 info2 (h.obj orig).enumConsts := by
              simp only [walk_after_archive, hadd, hwl, hen, if_true,
                ite_true]
            rw [hres]
            refine ⟨hwl2ne, ?_⟩
            intro b st' i' heq
            have hstep2 := hwl2ok b st' i' heq
            exact ⟨hstep1.1.trans hstep2.1,
              fun hn => hstep2.2 (hstep1.2 hn)⟩
          · have hres : walk_after_archive h
                (archive_reachable_objects_from h fuel (level + 1)
                  (some orig)) orig info st2 =
                WalkRes.ok true st3 info2 := by
              simp only [walk_after_archive, hadd, hwl, hen,
                Bool.false_eq_true, if_false, ite_false]
            rw [hres]
            refine ⟨fun hc => WalkRes.noConfusion hc, ?_⟩
            intro b st' i' heq
            injection heq with _ h2 h3
            rw [← h2]
            exact hstep1
    have hA : ∀ level ref st info obj, obj < h.n →
        unseenCount h st < fuel + 1 →
        (archive_reachable_objects_from h (fuel + 1) level ref st info obj ≠
          WalkRes.fuelOut) ∧
        (∀ b st' info',
          archive_reachable_objects_from h (fuel + 1) level ref st info
            obj = WalkRes.ok b st' info' →
          walkStep st st' ∧
          (if (h.obj obj).isMirror then (h.obj obj).scratch else obj) ∈
            st'.seen) := by
      intro level ref st info obj hobj hfu
      by_cases hsup : (h.obj obj).supported
      · have horiglt :
            (if (h.obj obj).isMirror then (h.obj obj).scratch else obj) <
              h.n := by
          by_cases hm : (h.obj obj).isMirror
          · rw [if_pos hm]
            exact (hwf obj hobj).1 hm
          · rw [if_neg hm]
            exact hobj
        by_cases hseen :
            (if (h.obj obj).isMirror then (h.obj obj).scratch else obj) ∈
              st.seen
        · have hres : archive_reachable_objects_from h (fuel + 1) level ref
              st info obj = WalkRes.ok true st info := by
            rw [archive_reachable_objects_from]
            rw [if_neg (by simp [hsup])]
            dsimp only
            rw [if_pos hseen]
          rw [hres]
          refine ⟨fun hc => WalkRes.noConfusion hc, ?_⟩
          intro b st' i' heq
          injection heq with _ h2 h3
          rw [← h2]
          exact ⟨⟨List.Subset.refl _, id⟩, hseen⟩
        · have hdec := unseenCount_mark h st _ horiglt hseen
          have hfu1 : unseenCount h { st with seen :=
              (if (h.obj obj).isMirror then (h.obj obj).scratch else obj) ::
                st.seen } < fuel := by omega
          by_cases harch : has_been_archived { st with seen :=
              (if (h.obj obj).isMirror then (h.obj obj).scratch else obj) ::
                st.seen }
              (if (h.obj obj).isMirror then (h.obj obj).scratch else obj)
          · have hres : archive_reachable_objects_from h (fuel + 1) level
                ref st info obj =
                walk_after_archive h
                  (archive_reachable_objects_from h fuel (level + 1)
                    (some (if (h.obj obj).isMirror then (h.obj obj).scratch
                      else obj)))
                  (if (h.obj obj).isMirror then (h.obj obj).scratch
                    else obj) info
                  { st with seen :=
                    (if (h.obj obj).isMirror then (h.obj obj).scratch
                      else obj) :: st.seen } := by
              rw [archive_reachable_objects_from]
              rw [if_neg (by simp [hsup])]
              dsimp only
              rw [if_neg hseen, if_pos harch]
            obtain ⟨hne, hok⟩ := hWAA level
              (if (h.obj obj).isMirror then (h.obj obj).scratch else obj)
              info
              { st with seen :=
                (if (h.obj obj).isMirror then (h.obj obj).scratch
                  else obj) :: st.seen } horiglt hfu1
            rw [hres]
            refine ⟨hne, ?_⟩
            intro b st' i' heq
            have hstep := hok b st' i' heq
            refine ⟨⟨(List.subset_cons_self _ _).trans hstep.1, hstep.2⟩, ?_⟩
            exact hstep.1 (List.mem_cons_self _ _)
          · cases hao : archive_object h ref
                { st with seen :=
                  (if (h.obj obj).isMirror then (h.obj obj).scratch
                    else obj) :: st.seen }
                (if (h.obj obj).isMirror then (h.obj obj).scratch
                  else obj) with
            | mk b2 st2 =>
              cases b2 with
              | true =>
                have hres : archive_reachable_objects_from h (fuel + 1)
                    level ref st info obj =
                    walk_after_archive h
                      (archive_reachable_objects_from h fuel (level + 1)
                        (some (if (h.obj obj).isMirror then
                          (h.obj obj).scratch else obj)))
                      (if (h.obj obj).isMirror then (h.obj obj).scratch
                        else obj) info st2 := by
                  rw [archive_reachable_objects_from]
                  rw [if_neg (by simp [hsup])]
                  dsimp only
                  rw [if_neg hseen, if_neg harch, hao]
                have hseq : st2.seen =
                    (if (h.obj obj).isMirror then (h.obj obj).scratch
                      else obj) :: st.seen := by
                  have hs := archive_object_seen_eq h ref
                    { st with seen :=
                      (if (h.obj obj).isMirror then (h.obj obj).scratch
                        else obj) :: st.seen }
                    (if (h.obj obj).isMirror then (h.obj obj).scratch
                      else obj)
                  rw [hao] at hs
                  exact hs
                have hfu2 : unseenCount h st2 < fuel := by
                  have hequ : unseenCount h st2 = unseenCount h
                      { st with seen :=
                        (if (h.obj obj).isMirror then (h.obj obj).scratch
                          else obj) :: st.seen } := by
                    unfold unseenCount
                    rw [hseq]
                  omega
                obtain ⟨hne, hok⟩ := hWAA level
                  (if (h.obj obj).isMirror then (h.obj obj).scratch
                    else obj) info st2 horiglt hfu2
                rw [hres]
                refine ⟨hne, ?_⟩
                intro b st' i' heq
                have hstep := hok b st' i' heq
                have hnd2 : (cacheKeys st).Nodup →
                    (cacheKeys st2).Nodup := by
                  intro hn
                  have hh := archive_object_nodup h ref
                    { st with seen :=
                      (if (h.obj obj).isMirror then (h.obj obj).scratch
                        else obj) :: st.seen }
                    (if (h.obj obj).isMirror then (h.obj obj).scratch
                      else obj) hn
                  rw [hao] at hh
                  exact hh
                refine ⟨⟨?_, fun hn => hstep.2 (hnd2 hn)⟩, ?_⟩
                · intro x hx
                  apply hstep.1
                  rw [hseq]
                  exact List.mem_cons_of_mem _ hx
                · apply hstep.1
                  rw [hseq]
                  exact List.mem_cons_self _ _
              | false =>
                have hst2 : st2 = { st with seen :=
                    (if (h.obj obj).isMirror then (h.obj obj).scratch
                      else obj) :: st.seen } := by
                  have hs := archive_object_false_state h ref
                    { st with seen :=
                      (if (h.obj obj).isMirror then (h.obj obj).scratch
                        else obj) :: st.seen }
                    (if (h.obj obj).isMirror then (h.obj obj).scratch
                      else obj) (by rw [hao])
                  rw [hao] at hs
                  exact hs
                by_cases hlv : level = 1
                · have hres : archive_reachable_objects_from h (fuel + 1)
                      level ref st info obj = WalkRes.ok false st2 info := by
                    rw [archive_reachable_objects_from]
                    rw [if_neg (by simp [hsup])]
                    dsimp only
                    rw [if_neg hseen, if_neg harch, hao]
                    dsimp only
                    rw [if_pos hlv]
                  rw [hres]
                  refine ⟨fun hc => WalkRes.noConfusion hc, ?_⟩
                  intro b st' i' heq
                  injection heq with _ h2 h3
                  rw [← h2, hst2]
                  exact ⟨⟨List.subset_cons_self _ _, id⟩,
                    List.mem_cons_self _ _⟩
                · have hres : archive_reachable_objects_from h (fuel + 1)
                      level ref st info obj = WalkRes.fatal := by
                    rw [archive_reachable_objects_from]
                    rw [if_neg (by simp [hsup])]
                    dsimp only
                    rw [if_neg hseen, if_neg harch, hao]
                    dsimp only
                    rw [if_neg hlv]
                  rw [hres]
                  exact ⟨fun hc => WalkRes.noConfusion hc,
                    fun b st' i' heq => WalkRes.noConfusion heq⟩
      · have hres : archive_reachable_objects_from h (fuel + 1) level ref
            st info obj = WalkRes.fatal := by
          rw [archive_reachable_objects_from]
          rw [if_pos (by simp [hsup])]
        rw [hres]
        exact ⟨fun hc => WalkRes.noConfusion hc,
          fun b st' i' heq => WalkRes.noConfusion heq⟩
    refine ⟨hA, ?_⟩
    intro level par st info l
    induction l generalizing st info with
    | nil =>
      intro hl hfu
      constructor
      · intro hc
        simp only [walkList] at hc
        exact WalkRes.noConfusion hc
      · intro b st' i' heq
        simp only [walkList] at heq
        injection heq with _ h2 _
        rw [← h2]
        exact ⟨List.Subset.refl _, id⟩
    | cons c rest ihl =>
      intro hl hfu
      cases c with
      | none =>
        have hl' : ∀ c, some c ∈ rest → c < h.n :=
          fun c hc => hl c (List.mem_cons_of_mem _ hc)
        simpa only [walkList] using ihl st info hl' hfu
      | some cv =>
        have hcv : cv < h.n := hl cv (List.mem_cons_self _ _)
        obtain ⟨hane, haok⟩ := hA level par st info cv hcv hfu
        cases hres : archive_reachable_objects_from h (fuel + 1) level par
            st info cv with
        | fuelOut => exact absurd hres hane
        | fatal =>
          have hgoal : walkList (archive_reachable_objects_from h (fuel + 1)
              level par) st info (some cv :: rest) = WalkRes.fatal := by
            simp only [walkList, hres]
          rw [hgoal]
          exact ⟨fun hc => WalkRes.noConfusion hc,
            fun b st' i' heq => WalkRes.noConfusion heq⟩
        | ok b2 stx infox =>
          have hstep := (haok b2 stx infox hres).1
          have hgoal : walkList (archive_reachable_objects_from h (fuel + 1)
              level par) st info (some cv :: rest) =
              walkList (archive_reachable_objects_from h (fuel + 1) level
                par) stx infox rest := by
            simp only [walkList, hres]
          have hfux : unseenCount h stx < fuel + 1 :=
            Nat.lt_of_le_of_lt (unseenCount_mono h st stx hstep.1) hfu
          have hl' : ∀ c, some c ∈ rest → c < h.n :=
            fun c hc => hl c (List.mem_cons_of_mem _ hc)
          obtain ⟨hrne, hrok⟩ := ihl stx infox hl' hfux
          rw [hgoal]
          refine ⟨hrne, ?_⟩
          intro b st' i' heq
          have hstep2 := hrok b st' i' heq
          exact ⟨hstep.1.trans hstep2.1, fun hn => hstep2.2 (hstep.2 hn)⟩

/-- C4: for every finite well-formed object graph — including graphs with
reference cycles — the walk terminates: with fuel exceeding the number of
not-yet-visited objects the walker never exhausts it, because each object
is marked in the session visited set before its outgoing references are
recursed into, so the unseen count strictly decreases; moreover, on any
non-fatal return the visited set has only grown, the (scratch-substituted)
root has been visited, and the identity cache still holds every object at
most once — each object is archived at most once per session. -/
theorem c4_walk_terminates (h : Heap) (fuel level : Nat) (ref : Option Nat)
    (st : DumpState) (info : KlassSubGraphInfo) (obj : Nat)
    (hwf : Heap.wf h) (hobj : obj < h.n)
    (hfuel : unseenCount h st < fuel) :
    (archive_reachable_objects_from h fuel level ref st info obj ≠
      WalkRes.fuelOut) ∧
    (∀ b st' info',
      archive_reachable_objects_from h fuel level ref st info obj =
        WalkRes.ok b st' info' →
      st.seen ⊆ st'.seen ∧
      ((cacheKeys st).Nodup → (cacheKeys st').Nodup) ∧
      (if (h.obj obj).isMirror then (h.obj obj).scratch else obj) ∈
        st'.seen) := by
  obtain ⟨hne, hok⟩ :=
    (walker_fuel_aux h hwf fuel).1 level ref st info obj hobj hfuel
  refine ⟨hne, ?_⟩
  intro b st' i' heq
  obtain ⟨⟨h1, h2⟩, h3⟩ := hok b st' i' heq
  exact ⟨h1, h2, h3⟩

/-- A two-object heap with a reference cycle: object 0 references object 1
and object 1 references object 0. -/
def cycleHeap : Heap :=
  { n := 2,
    obj := fun o =>
      if o = 0 then
        { size := 1, fields := [some 1], isMirror := false, scratch := 0,
          supported := true, klass := 0, isEnum := false, enumConsts := [],
          isArchivedModule := false }
      else
        { size := 1, fields := [some 0], isMirror := false, scratch := 0,
          supported := true, klass := 0, isEnum := false, enumConsts := [],
          isArchivedModule := false },
    klassMeta := fun _ =>
      { kind := KKind.instanceK, isStringOrObjectKlass := false,
        inJavaBase := true, isTestClass := false, isEarly := true,
        isObjectArrayKlassObj := false },
    tooLargeSize := fun _ => false,
    archiveInvokeDynamic := false,
    staticField := fun _ _ => some 0 }

theorem c4_witness :
    (Heap.wf cycleHeap ∧ 0 < cycleHeap.n ∧
     unseenCount cycleHeap emptyDump < 3) ∧
    ((archive_reachable_objects_from cycleHeap 3 1 none emptyDump wInfo 0 ≠
       WalkRes.fuelOut) ∧
     (∀ b st' info',
       archive_reachable_objects_from cycleHeap 3 1 none emptyDump wInfo 0 =
         WalkRes.ok b st' info' →
       emptyDump.seen ⊆ st'.seen ∧
       ((cacheKeys emptyDump).Nodup → (cacheKeys st').Nodup) ∧
       (if (cycleHeap.obj 0).isMirror then (cycleHeap.obj 0).scratch
         else 0) ∈ st'.seen)) ∧
    archive_reachable_objects_from cycleHeap 3 1 none emptyDump wInfo 0 =
      WalkRes.ok true
        { cache := [(0, { referrer := none }), (1, { referrer := some 0 })],
          pendingRoots := [], seen := [1, 0], sourceObjs := [0, 1],
          events := [AEvent.addSource 0, AEvent.hashed 0, AEvent.cachePut 0,
                     AEvent.addSource 1, AEvent.hashed 1,
                     AEvent.cachePut 1] }
        { k := 100, isFullModuleGraph := false, entryFields := [],
          objectKlasses := [0], hasNonEarlyKlasses := false } :=
  ⟨⟨by unfold Heap.wf; decide, by decide, by decide⟩,
   c4_walk_terminates cycleHeap 3 1 none emptyDump wInfo 0
     (by unfold Heap.wf; decide) (by decide) (by decide),
   by decide⟩
